import Mathlib

/-!
Verification development for the sector-analyzer scoring engine
(packages `analysis` and `config` of the Go source, files `signals.go`
and `scoring.go`).

Modelling conventions:

* `float64` values are modelled as exact real numbers.  This idealises
  IEEE-754 arithmetic: rounding error, infinities and NaN are outside the
  model, and Lean's total division (`x / 0 = 0`) stands in for the IEEE
  exceptional cases.
* Go maps (`map[string]float64` and friends) are modelled as association
  lists `List (String × _)`; all map iterations performed by the source
  (sums, min/max scans, per-key transforms) are order-independent in exact
  arithmetic, so fixing the list order is faithful.
* `gonum`'s `stat.Mean` is the arithmetic mean and `stat.StdDev` is the
  unbiased sample standard deviation (sum of squared deviations divided by
  `n - 1`, then a square root), per that library's documentation.
* `math.Round` rounds half away from zero.
* `sort.Slice` on a slice of at most 12 elements runs an insertion sort
  (Go's pdqsort takes its small-slice path), which is a stable sort; it is
  modelled by `List.insertionSort`, which is likewise stable, and the order
  properties the development needs are proved, not assumed.
-/

noncomputable section

/-- Lookup in an association list (Go map read `m[k]` with the comma-ok
idiom); the first binding of the key wins, matching map semantics where
keys are unique. -/
def alookup (k : String) : List (String × α) → Option α
  | [] => none
  | (k1, v) :: rest => if k1 = k then some v else alookup k rest

/-- Go's `math.Round`: rounds to the nearest integer, halves away from zero. -/
def goRound (x : ℝ) : ℝ :=
  if x < 0 then -(((⌊-x + 1/2⌋ : ℤ) : ℝ)) else ((⌊x + 1/2⌋ : ℤ) : ℝ)

/-- The source's two-decimal rounding idiom `math.Round(x*100) / 100`. -/
def round2 (x : ℝ) : ℝ := goRound (x * 100) / 100

/-- gonum `stat.Mean` with nil weights: the arithmetic mean. -/
def Mean (xs : List ℝ) : ℝ := xs.sum / xs.length

/-- gonum `stat.Variance` with nil weights: the unbiased sample variance,
sum of squared deviations over `n - 1`. -/
def Variance (xs : List ℝ) : ℝ :=
  ((xs.map (fun x => (x - Mean xs) ^ 2)).sum) / ((xs.length : ℝ) - 1)

/-- gonum `stat.StdDev`: square root of the unbiased sample variance. -/
def StdDev (xs : List ℝ) : ℝ := Real.sqrt (Variance xs)

/-- gonum `stat.Covariance` with nil weights: unbiased sample covariance. -/
def Covariance (xs ys : List ℝ) : ℝ :=
  ((List.zipWith (fun x y => (x - Mean xs) * (y - Mean ys)) xs ys).sum) /
    ((xs.length : ℝ) - 1)

/-- gonum `stat.Correlation`: Pearson correlation, sample covariance divided
by the product of the sample standard deviations. -/
def Correlation (xs ys : List ℝ) : ℝ := Covariance xs ys / (StdDev xs * StdDev ys)

/-- config.SectorNames: the fixed ordered list of all sector names. -/
def SectorNames : List String :=
  ["Information Technology",
   "Financials",
   "Energy",
   "Health Care",
   "Consumer Discretionary",
   "Consumer Staples",
   "Industrials",
   "Materials",
   "Utilities",
   "Real Estate",
   "Communication Services"]

/-- config.MomentumPeriods: months for return calculations. -/
def MomentumPeriods : List ℕ := [3, 6, 12]

/-- A weight configuration: the five named entries of the Go weight map
(`momentum`, `valuation`, `growth`, `innovation`, `macro`).  The last field
is called `macroW` because its Go key is a reserved word here. -/
structure Weights where
  momentum : ℝ
  valuation : ℝ
  growth : ℝ
  innovation : ℝ
  macroW : ℝ

/-- The sum of a weight map's values (the `for _, w := range weights` loop). -/
def sumWeights (w : Weights) : ℝ :=
  w.momentum + w.valuation + w.growth + w.innovation + w.macroW

/-- config.DefaultWeights. -/
def DefaultWeights : Weights := ⟨0.25, 0.20, 0.20, 0.20, 0.15⟩

/-- data.PriceBar.  The fields the scoring engine reads; `Date`, `Open`,
`High` and `Low` are never consulted by any calculator and are omitted. -/
structure PriceBar where
  close : ℝ
  volume : ℤ

instance : Inhabited PriceBar := ⟨⟨0, 0⟩⟩

/-- data.PriceSeries: price bars ordered by date. -/
def PriceSeries : Type := List PriceBar

/-- data.SectorPrices: sector name (or `"_benchmark"`) to price series. -/
def SectorPrices : Type := List (String × List PriceBar)

/-- data.TimeSeries.  Only the `Values` array is read by the calculators. -/
structure TimeSeries where
  Values : List ℝ

/-- data.MacroData: FRED series keyed by name. -/
def MacroData : Type := List (String × TimeSeries)

/-- data.EmploymentData: employment series keyed by sector. -/
def EmploymentData : Type := List (String × TimeSeries)

/-- data.RDData: R&D intensity keyed by sector. -/
def RDData : Type := List (String × ℝ)

/-- data.SectorInfo.  Only `ForwardPE` is read by the scoring engine. -/
structure SectorInfo where
  ForwardPE : Option ℝ

/-- data.AllData: the aggregated snapshot handed to the engine. -/
structure AllData where
  SectorPrices : List (String × List PriceBar)
  SectorInfo : List (String × SectorInfo)
  MacroData : List (String × TimeSeries)
  EmploymentData : List (String × TimeSeries)
  RDData : List (String × ℝ)

/-- Head-seeded fold computing the minimum of the values of a map, as the
source's `first`/scan loop does; the `[]` case is never reached (the caller
guards against empty input). -/
def listMin : List ℝ → ℝ
  | [] => 0
  | a :: rest => rest.foldl min a

/-- Head-seeded fold computing the maximum of the values of a map. -/
def listMax : List ℝ → ℝ
  | [] => 0
  | a :: rest => rest.foldl max a

/-- analysis.NormalizeScore: min-max normalization to a 0-100 scale. -/
def NormalizeScore (values : List (String × ℝ)) (higherIsBetter : Bool) :
    List (String × ℝ) :=
  if values = [] then []
  else
    let vals := values.map Prod.snd
    let minVal := listMin vals
    let maxVal := listMax vals
    if maxVal = minVal then values.map (fun p => (p.1, 50))
    else
      values.map (fun p =>
        let score := ((p.2 - minVal) / (maxVal - minVal)) * 100
        let score1 := if !higherIsBetter then 100 - score else score
        (p.1, round2 score1))

/-- analysis.NormalizeScoreZScore: z-score normalization converted to a
0-100 scale via `50 + z*15`, clamped, with polarity inversion and
two-decimal rounding. -/
def NormalizeScoreZScore (values : List (String × ℝ)) (higherIsBetter : Bool) :
    List (String × ℝ) :=
  if values = [] then []
  else
    let vals := values.map Prod.snd
    let mean := Mean vals
    let std := StdDev vals
    if std = 0 then values.map (fun p => (p.1, 50))
    else
      values.map (fun p =>
        let z := (p.2 - mean) / std
        let score := 50 + z * 15
        let score1 := if score < 0 then (0 : ℝ) else score
        let score2 := if score1 > 100 then (100 : ℝ) else score1
        let score3 := if !higherIsBetter then 100 - score2 else score2
        (p.1, round2 score3))

/-- The z-score normalizer as the specification words it: identical to
`NormalizeScoreZScore` except that the standard deviation is the population
one (squared deviations divided by `n`, not `n - 1`).  Stated only to be
compared against the implementation. -/
def NormalizeScoreZScoreSpec (values : List (String × ℝ)) (higherIsBetter : Bool) :
    List (String × ℝ) :=
  if values = [] then []
  else
    let vals := values.map Prod.snd
    let mean := Mean vals
    let std := Real.sqrt (((vals.map (fun x => (x - mean) ^ 2)).sum) / vals.length)
    if std = 0 then values.map (fun p => (p.1, 50))
    else
      values.map (fun p =>
        let z := (p.2 - mean) / std
        let score := 50 + z * 15
        let score1 := if score < 0 then (0 : ℝ) else score
        let score2 := if score1 > 100 then (100 : ℝ) else score1
        let score3 := if !higherIsBetter then 100 - score2 else score2
        (p.1, round2 score3))

/-- analysis.periodKey. -/
def periodKey (months : ℕ) : String :=
  if months = 3 then "3mo"
  else if months = 6 then "6mo"
  else if months = 12 then "12mo"
  else ""

/-- analysis.CalculatePriceReturns: price returns per sector for the
configured momentum periods. -/
def CalculatePriceReturns (prices : List (String × List PriceBar)) :
    List (String × List (String × ℝ)) :=
  prices.filterMap (fun p =>
    if p.1 = "_benchmark" ∨ p.2.length < 20 then none
    else
      let sectorReturns := MomentumPeriods.filterMap (fun months =>
        let tradingDays := months * 21
        if p.2.length ≥ tradingDays then
          let startPrice := (p.2.getD (p.2.length - tradingDays) default).close
          let endPrice := (p.2.getD (p.2.length - 1) default).close
          some (periodKey months, ((endPrice - startPrice) / startPrice) * 100)
        else none)
      if sectorReturns.length > 0 then some (p.1, sectorReturns) else none)

/-- analysis.CalculateRelativeStrength: sector return minus benchmark return
over the given period. -/
def CalculateRelativeStrength (prices : List (String × List PriceBar))
    (periodMonths : ℕ) : List (String × ℝ) :=
  match alookup "_benchmark" prices with
  | none => []
  | some benchmarkSeries =>
    if benchmarkSeries.length = 0 then []
    else
      let tradingDays := periodMonths * 21
      if benchmarkSeries.length < tradingDays then []
      else
        let benchmarkReturn :=
          ((benchmarkSeries.getD (benchmarkSeries.length - 1) default).close /
            (benchmarkSeries.getD (benchmarkSeries.length - tradingDays) default).close - 1) * 100
        prices.filterMap (fun p =>
          if p.1 = "_benchmark" ∨ p.2.length < tradingDays then none
          else
            let sectorReturn :=
              ((p.2.getD (p.2.length - 1) default).close /
                (p.2.getD (p.2.length - tradingDays) default).close - 1) * 100
            some (p.1, sectorReturn - benchmarkReturn))

/-- analysis.CalculateVolumeTrend: percentage deviation of the short-window
average volume from the long-window average volume. -/
def CalculateVolumeTrend (prices : List (String × List PriceBar))
    (shortPeriod longPeriod : ℕ) : List (String × ℝ) :=
  prices.filterMap (fun p =>
    if p.1 = "_benchmark" ∨ p.2.length < longPeriod then none
    else
      let shortSum := (((p.2.drop (p.2.length - shortPeriod)).map PriceBar.volume).sum : ℤ)
      let shortAvg := (shortSum : ℝ) / shortPeriod
      let longSum := (((p.2.drop (p.2.length - longPeriod)).map PriceBar.volume).sum : ℤ)
      let longAvg := (longSum : ℝ) / longPeriod
      if longAvg > 0 then some (p.1, ((shortAvg - longAvg) / longAvg) * 100) else none)

/-- analysis.getOrDefault. -/
def getOrDefault (m : List (String × ℝ)) (key : String) (d : ℝ) : ℝ :=
  (alookup key m).getD d

/-- analysis.defaultScores: the neutral 50 for every configured sector. -/
def defaultScores : List (String × ℝ) := SectorNames.map (fun s => (s, 50))

/-- analysis.CalculateMomentumScore: z-scored blend of 12-month returns,
relative strength and volume trend, 50/35/15. -/
def CalculateMomentumScore (prices : List (String × List PriceBar)) :
    List (String × ℝ) :=
  let returns := CalculatePriceReturns prices
  let relStrength := CalculateRelativeStrength prices 12
  let volumeTrend := CalculateVolumeTrend prices 20 50
  let returns12mo := returns.filterMap (fun p =>
    (alookup "12mo" p.2).map (fun r => (p.1, r)))
  let normReturns := NormalizeScoreZScore returns12mo true
  let normRelStrength := NormalizeScoreZScore relStrength true
  let normVolume := NormalizeScoreZScore volumeTrend true
  SectorNames.map (fun sector =>
    let retScore := getOrDefault normReturns sector 50
    let rsScore := getOrDefault normRelStrength sector 50
    let volScore := getOrDefault normVolume sector 50
    (sector, round2 (0.50 * retScore + 0.35 * rsScore + 0.15 * volScore)))

/-- analysis.CalculateValuationScore: z-scored forward P/E, lower is
better, missing sectors filled with 50. -/
def CalculateValuationScore (sectorPE : List (String × ℝ))
    (sectorInfo : List (String × SectorInfo)) : List (String × ℝ) :=
  let peMap1 := sectorPE.filter (fun p => p.2 > 0)
  let peMap := peMap1 ++ sectorInfo.filterMap (fun p =>
    if (alookup p.1 peMap1).isNone then
      p.2.ForwardPE.bind (fun pe => if pe > 0 then some (p.1, pe) else none)
    else none)
  if peMap.length = 0 then defaultScores
  else
    let scores := NormalizeScoreZScore peMap false
    scores ++ (SectorNames.filter (fun s => (alookup s scores).isNone)).map
      (fun s => (s, 50))

/-- analysis.CalculateEmploymentGrowth: year-over-year employment growth. -/
def CalculateEmploymentGrowth (employment : List (String × TimeSeries)) :
    List (String × ℝ) :=
  employment.filterMap (fun p =>
    if p.2.Values.length < 13 then none
    else
      let current := p.2.Values.getD (p.2.Values.length - 1) 0
      let yearAgo := p.2.Values.getD (p.2.Values.length - 13) 0
      if yearAgo > 0 then some (p.1, ((current - yearAgo) / yearAgo) * 100)
      else none)

/-- analysis.CalculateGrowthScore: z-scored employment growth, missing
sectors filled with 50. -/
def CalculateGrowthScore (employment : List (String × TimeSeries)) :
    List (String × ℝ) :=
  let growth := CalculateEmploymentGrowth employment
  if growth.length = 0 then defaultScores
  else
    let scores := NormalizeScoreZScore growth true
    scores ++ (SectorNames.filter (fun s => (alookup s scores).isNone)).map
      (fun s => (s, 50))

/-- analysis.CalculateInnovationScore: z-scored R&D intensity over the
positive entries, missing sectors filled with the below-average 30. -/
def CalculateInnovationScore (rdData : List (String × ℝ)) : List (String × ℝ) :=
  if rdData = [] then defaultScores
  else
    let validRD := rdData.filter (fun p => p.2 > 0)
    if validRD = [] then defaultScores
    else
      let scores := NormalizeScoreZScore validRD true
      scores ++ (SectorNames.filter (fun s => (alookup s scores).isNone)).map
        (fun s => (s, 30))

/-- analysis.monthlyChanges: month-over-month fractional changes, steps with
a zero prior value skipped. -/
def monthlyChanges (ts : TimeSeries) : List ℝ :=
  if ts.Values.length < 2 then []
  else
    (ts.Values.zip ts.Values.tail).filterMap (fun p =>
      if p.1 ≠ 0 then some ((p.2 - p.1) / p.1) else none)

/-- analysis.monthlyReturnsFromPrices: monthly returns approximated by
21-trading-day strides. -/
def monthlyReturnsFromPrices (series : List PriceBar) : List ℝ :=
  if series.length < 21 then []
  else
    (List.range' 21 ((series.length - 1) / 21) 21).filterMap (fun i =>
      let prevPrice := (series.getD (i - 21) default).close
      let currPrice := (series.getD i default).close
      if prevPrice > 0 then some ((currPrice - prevPrice) / prevPrice) else none)

/-- analysis.CalculateRateSensitivity: correlation between a sector's
monthly returns and the reference rate's monthly changes.  The source drops
a NaN correlation; in the exact-real model the correlation is always a
number, so every computed pair is kept. -/
def CalculateRateSensitivity (prices : List (String × List PriceBar))
    (interestRates : TimeSeries) : List (String × ℝ) :=
  if interestRates.Values.length = 0 then []
  else
    let rateChanges := monthlyChanges interestRates
    prices.filterMap (fun p =>
      if p.1 = "_benchmark" ∨ p.2.length < 252 then none
      else
        let sectorReturns := monthlyReturnsFromPrices p.2
        if sectorReturns.length < 12 ∨ rateChanges.length < 12 then none
        else
          let n := min sectorReturns.length rateChanges.length
          if n < 12 then none
          else
            let returns := sectorReturns.drop (sectorReturns.length - n)
            let rates := rateChanges.drop (rateChanges.length - n)
            some (p.1, Correlation returns rates))

/-- analysis.CalculateMacroScore: z-scored rate sensitivity, lower
correlation better, defaults when the reference series is absent. -/
def CalculateMacroScore (prices : List (String × List PriceBar))
    (macroData : List (String × TimeSeries)) : List (String × ℝ) :=
  match alookup "treasury_10y" macroData with
  | none => defaultScores
  | some interestRates =>
    let sensitivity := CalculateRateSensitivity prices interestRates
    if sensitivity.length = 0 then defaultScores
    else
      let scores := NormalizeScoreZScore sensitivity false
      scores ++ (SectorNames.filter (fun s => (alookup s scores).isNone)).map
        (fun s => (s, 50))

/-- analysis.SectorScore: a sector's complete scoring breakdown. -/
structure SectorScore where
  Sector : String
  OpportunityScore : ℝ
  Rank : ℕ
  MomentumScore : ℝ
  ValuationScore : ℝ
  GrowthScore : ℝ
  InnovationScore : ℝ
  MacroScore : ℝ
  PriceReturn3Mo : Option ℝ
  PriceReturn6Mo : Option ℝ
  PriceReturn12Mo : Option ℝ
  RelativeStrength : Option ℝ
  ForwardPE : Option ℝ
  EmploymentGrowth : Option ℝ
  RDIntensity : Option ℝ

/-- The comparison under the source's `sort.Slice` call, as the reflexive
relation a stable descending sort orders by. -/
def scoreGE (a b : SectorScore) : Prop :=
  b.OpportunityScore ≤ a.OpportunityScore

instance : DecidableRel scoreGE :=
  fun a b => inferInstanceAs (Decidable (b.OpportunityScore ≤ a.OpportunityScore))

instance : IsTotal SectorScore scoreGE :=
  ⟨fun a b => le_total b.OpportunityScore a.OpportunityScore⟩

instance : IsTrans SectorScore scoreGE :=
  ⟨fun _ _ _ h1 h2 => le_trans h2 h1⟩

/-- analysis.SectorScorer. -/
structure SectorScorer where
  Weights : Weights

/-- analysis.NewSectorScorer: optional custom weights, normalized to sum
to 1.0 when the sum is positive and off by more than the tolerance. -/
def NewSectorScorer (weights : Option Weights) : SectorScorer :=
  let w := weights.getD DefaultWeights
  let sum := sumWeights w
  if sum > 0 ∧ |sum - 1| > 0.01 then
    ⟨⟨w.momentum / sum, w.valuation / sum, w.growth / sum,
      w.innovation / sum, w.macroW / sum⟩⟩
  else ⟨w⟩

/-- analysis.CalculateScores: computes opportunity scores for all sectors,
sorts descending by opportunity score (stable) and assigns 1-based ranks. -/
def CalculateScores (s : SectorScorer) (allData : AllData) : List SectorScore :=
  let momentumScores := CalculateMomentumScore allData.SectorPrices
  let valuationScores := CalculateValuationScore [] allData.SectorInfo
  let growthScores := CalculateGrowthScore allData.EmploymentData
  let innovationScores := CalculateInnovationScore allData.RDData
  let macroScores := CalculateMacroScore allData.SectorPrices allData.MacroData
  let priceReturns := CalculatePriceReturns allData.SectorPrices
  let relStrength := CalculateRelativeStrength allData.SectorPrices 12
  let employmentGrowth := CalculateEmploymentGrowth allData.EmploymentData
  let scores := SectorNames.map (fun sector =>
    let momentum := getOrDefault momentumScores sector 50
    let valuation := getOrDefault valuationScores sector 50
    let growth := getOrDefault growthScores sector 50
    let innovation := getOrDefault innovationScores sector 50
    let macroVal := getOrDefault macroScores sector 50
    let opportunity :=
      s.Weights.momentum * momentum + s.Weights.valuation * valuation +
        s.Weights.growth * growth + s.Weights.innovation * innovation +
        s.Weights.macroW * macroVal
    { Sector := sector
      OpportunityScore := round2 opportunity
      Rank := 0
      MomentumScore := momentum
      ValuationScore := valuation
      GrowthScore := growth
      InnovationScore := innovation
      MacroScore := macroVal
      PriceReturn3Mo := (alookup sector priceReturns).bind (fun r => alookup "3mo" r)
      PriceReturn6Mo := (alookup sector priceReturns).bind (fun r => alookup "6mo" r)
      PriceReturn12Mo := (alookup sector priceReturns).bind (fun r => alookup "12mo" r)
      RelativeStrength := alookup sector relStrength
      ForwardPE := (alookup sector allData.SectorInfo).bind (fun info => info.ForwardPE)
      EmploymentGrowth := alookup sector employmentGrowth
      RDIntensity := alookup sector allData.RDData })
  let sorted := List.insertionSort scoreGE scores
  List.zipWith (fun r i => { r with Rank := i }) sorted (List.range' 1 sorted.length)

/-- An entirely empty snapshot, used to instantiate universally quantified
results at a concrete input. -/
def noData : AllData := ⟨[], [], [], [], []⟩

/-! ### Rounding lemmas -/

theorem goRound_nonneg_def (x : ℝ) (h0 : 0 ≤ x) :
    goRound x = ((⌊x + 1/2⌋ : ℤ) : ℝ) := by
  unfold goRound
  rw [if_neg (not_lt.mpr h0)]

theorem goRound_eq (x : ℝ) (m : ℤ) (h0 : 0 ≤ x) (hlo : (m : ℝ) ≤ x + 1/2)
    (hhi : x + 1/2 < m + 1) : goRound x = (m : ℝ) := by
  rw [goRound_nonneg_def x h0]
  congr 1
  exact Int.floor_eq_iff.mpr ⟨hlo, by linarith⟩

theorem round2_eq (x : ℝ) (m : ℤ) (h0 : 0 ≤ x) (hlo : (m : ℝ) ≤ x * 100 + 1/2)
    (hhi : x * 100 + 1/2 < m + 1) : round2 x = (m : ℝ) / 100 := by
  unfold round2
  rw [goRound_eq (x * 100) m (by positivity) hlo hhi]

theorem abs_goRound_sub_le (x : ℝ) : |goRound x - x| ≤ 1/2 := by
  unfold goRound
  rcases lt_or_ge x 0 with h | h
  · rw [if_pos h]
    have h1 := Int.floor_le (-x + 1/2)
    have h2 := Int.lt_floor_add_one (-x + 1/2)
    rw [abs_le]
    constructor <;> linarith
  · rw [if_neg (not_lt.mpr h)]
    have h1 := Int.floor_le (x + 1/2)
    have h2 := Int.lt_floor_add_one (x + 1/2)
    rw [abs_le]
    constructor <;> linarith

theorem abs_round2_sub_le (x : ℝ) : |round2 x - x| ≤ 1/100 := by
  unfold round2
  have h := abs_goRound_sub_le (x * 100)
  have e : goRound (x * 100) / 100 - x = (goRound (x * 100) - x * 100) / 100 := by
    ring
  rw [e, abs_div, abs_of_pos (show (0:ℝ) < 100 by norm_num)]
  linarith

theorem round2_mem_Icc (x : ℝ) (h0 : 0 ≤ x) (h100 : x ≤ 100) :
    0 ≤ round2 x ∧ round2 x ≤ 100 := by
  unfold round2
  rw [goRound_nonneg_def (x * 100) (by positivity)]
  constructor
  · have : (0 : ℤ) ≤ ⌊x * 100 + 1/2⌋ := Int.le_floor.mpr (by push_cast; linarith)
    have h2 : (0 : ℝ) ≤ ((⌊x * 100 + 1/2⌋ : ℤ) : ℝ) := by exact_mod_cast this
    linarith
  · have h1 : ⌊x * 100 + 1/2⌋ ≤ ⌊(10000 + 1/2 : ℝ)⌋ := Int.floor_le_floor (by linarith)
    have h2 : ⌊(10000 + 1/2 : ℝ)⌋ = 10000 :=
      Int.floor_eq_iff.mpr ⟨by norm_num, by norm_num⟩
    rw [h2] at h1
    have h3 : ((⌊x * 100 + 1/2⌋ : ℤ) : ℝ) ≤ 10000 := by exact_mod_cast h1
    linarith

theorem round2_complement (s : ℝ) (h0 : 0 ≤ s) (h100 : s ≤ 100) :
    round2 (100 - s) = 100 - round2 s ∨
      round2 (100 - s) = 100 - round2 s + 1/100 := by
  unfold round2
  rw [goRound_nonneg_def (s * 100) (by positivity),
    goRound_nonneg_def ((100 - s) * 100) (by nlinarith)]
  set m := ⌊s * 100 + 1/2⌋ with hm
  have h1 : (m : ℝ) ≤ s * 100 + 1/2 := Int.floor_le _
  have h2 : s * 100 + 1/2 < m + 1 := Int.lt_floor_add_one _
  by_cases he : (m : ℝ) = s * 100 + 1/2
  · right
    have : (100 - s) * 100 + 1/2 = ((10001 - m : ℤ) : ℝ) := by push_cast; linarith
    rw [this, Int.floor_intCast]
    push_cast
    ring
  · left
    have hlt : (m : ℝ) < s * 100 + 1/2 := lt_of_le_of_ne h1 he
    have : ⌊(100 - s) * 100 + 1/2⌋ = 10000 - m := by
      apply Int.floor_eq_iff.mpr
      constructor
      · push_cast; linarith
      · push_cast; linarith
    rw [this]
    push_cast
    ring

/-! ### Association-list lemmas -/

theorem alookup_map_value (f : ℝ → ℝ) (k : String) :
    ∀ l : List (String × ℝ),
      alookup k (l.map (fun p => (p.1, f p.2))) = (alookup k l).map f := by
  intro l
  induction l with
  | nil => rfl
  | cons p rest ih =>
    simp only [List.map_cons, alookup]
    by_cases h : p.1 = k
    · rw [if_pos h, if_pos h]; rfl
    · rw [if_neg h, if_neg h, ih]

theorem alookup_map_some {f : ℝ → ℝ} {k : String} {l : List (String × ℝ)} {x : ℝ}
    (h : alookup k (l.map (fun p => (p.1, f p.2))) = some x) :
    ∃ v, alookup k l = some v ∧ x = f v := by
  rw [alookup_map_value] at h
  rcases Option.map_eq_some'.mp h with ⟨v, hv, hfv⟩
  exact ⟨v, hv, hfv.symm⟩

theorem alookup_map_value_eq (f : ℝ → ℝ) {k : String} {v : ℝ}
    {l : List (String × ℝ)} (h : alookup k l = some v) :
    alookup k (l.map (fun p => (p.1, f p.2))) = some (f v) := by
  rw [alookup_map_value, h]
  rfl

theorem alookup_of_nodup {k : String} {v : α} :
    ∀ {l : List (String × α)}, (l.map Prod.fst).Nodup → (k, v) ∈ l →
      alookup k l = some v := by
  intro l
  induction l with
  | nil => intro _ h; simp at h
  | cons p rest ih =>
    intro hnd hm
    rw [List.map_cons] at hnd
    have hnd2 := List.nodup_cons.mp hnd
    rcases List.mem_cons.mp hm with h | h
    · rw [← h]
      simp [alookup]
    · have hk : p.1 ≠ k := by
        intro hc
        apply hnd2.1
        rw [hc]
        exact List.mem_map_of_mem Prod.fst h
      simp only [alookup, if_neg hk]
      exact ih hnd2.2 h

theorem two_mem_two_le_length {x y : α} :
    ∀ {l : List α}, x ∈ l → y ∈ l → x ≠ y → 2 ≤ l.length := by
  intro l
  cases l with
  | nil => intro hx; simp at hx
  | cons a rest =>
    cases rest with
    | nil =>
      intro hx hy hxy
      simp only [List.mem_singleton] at hx hy
      exact absurd (hx.trans hy.symm) hxy
    | cons b rest2 =>
      intro _ _ _
      simp only [List.length_cons]
      omega

theorem alookup_mem {k : String} {v : α} :
    ∀ {l : List (String × α)}, alookup k l = some v → (k, v) ∈ l := by
  intro l
  induction l with
  | nil => intro h; simp [alookup] at h
  | cons p rest ih =>
    intro h
    simp only [alookup] at h
    by_cases hk : p.1 = k
    · rw [if_pos hk] at h
      injection h with hv
      apply List.mem_cons.mpr
      left
      rw [← hk, ← hv]
    · rw [if_neg hk] at h
      exact List.mem_cons.mpr (Or.inr (ih h))

theorem alookup_eq_none_iff {k : String} :
    ∀ {l : List (String × α)}, alookup k l = none ↔ k ∉ l.map Prod.fst := by
  intro l
  induction l with
  | nil => simp [alookup]
  | cons p rest ih =>
    simp only [alookup, List.map_cons, List.mem_cons]
    by_cases hk : p.1 = k
    · rw [if_pos hk]
      simp [hk]
    · rw [if_neg hk]
      rw [ih]
      constructor
      · intro h hc
        rcases hc with hc | hc
        · exact hk hc.symm
        · exact h hc
      · intro h hc
        exact h (Or.inr hc)

theorem alookup_append_left {k : String} {l1 l2 : List (String × α)} {v : α}
    (h : alookup k l1 = some v) : alookup k (l1 ++ l2) = some v := by
  induction l1 with
  | nil => simp [alookup] at h
  | cons p rest ih =>
    simp only [alookup, List.cons_append] at *
    by_cases hk : p.1 = k
    · rw [if_pos hk] at *; exact h
    · rw [if_neg hk] at *; exact ih h

theorem alookup_append_right {k : String} {l1 l2 : List (String × α)}
    (h : alookup k l1 = none) : alookup k (l1 ++ l2) = alookup k l2 := by
  induction l1 with
  | nil => simp
  | cons p rest ih =>
    simp only [alookup, List.cons_append] at *
    by_cases hk : p.1 = k
    · rw [if_pos hk] at h; cases h
    · rw [if_neg hk] at *; exact ih h

theorem alookup_map_const {c : α} {k : String} :
    ∀ names : List String,
      alookup k (names.map (fun s => (s, c))) =
        if k ∈ names then some c else none := by
  intro names
  induction names with
  | nil => simp [alookup]
  | cons s rest ih =>
    simp only [List.map_cons, alookup, List.mem_cons]
    by_cases h : s = k
    · rw [if_pos h, if_pos (Or.inl h.symm)]
    · rw [if_neg h, ih]
      by_cases h2 : k ∈ rest
      · rw [if_pos h2, if_pos (Or.inr h2)]
      · rw [if_neg h2, if_neg (by intro hc; rcases hc with hc | hc; exact h hc.symm; exact h2 hc)]

theorem map_fst_map_value (f : ℝ → ℝ) (l : List (String × ℝ)) :
    (l.map (fun p => (p.1, f p.2))).map Prod.fst = l.map Prod.fst := by
  rw [List.map_map]
  rfl

/-! ### Statistics lemmas -/

theorem foldl_min_le_init : ∀ (l : List ℝ) (a : ℝ), l.foldl min a ≤ a := by
  intro l
  induction l with
  | nil => intro a; simp
  | cons x rest ih =>
    intro a
    simp only [List.foldl_cons]
    exact le_trans (ih (min a x)) (min_le_left a x)

theorem foldl_min_le_mem : ∀ (l : List ℝ) (a : ℝ), ∀ x ∈ l, l.foldl min a ≤ x := by
  intro l
  induction l with
  | nil => intro a x hx; simp at hx
  | cons y rest ih =>
    intro a x hx
    simp only [List.foldl_cons]
    rcases List.mem_cons.mp hx with h | h
    · subst h
      exact le_trans (foldl_min_le_init rest (min a x)) (min_le_right a x)
    · exact ih (min a y) x h

theorem le_foldl_max_init : ∀ (l : List ℝ) (a : ℝ), a ≤ l.foldl max a := by
  intro l
  induction l with
  | nil => intro a; simp
  | cons x rest ih =>
    intro a
    simp only [List.foldl_cons]
    exact le_trans (le_max_left a x) (ih (max a x))

theorem mem_le_foldl_max : ∀ (l : List ℝ) (a : ℝ), ∀ x ∈ l, x ≤ l.foldl max a := by
  intro l
  induction l with
  | nil => intro a x hx; simp at hx
  | cons y rest ih =>
    intro a x hx
    simp only [List.foldl_cons]
    rcases List.mem_cons.mp hx with h | h
    · subst h
      exact le_trans (le_max_right a x) (le_foldl_max_init rest (max a x))
    · exact ih (max a y) x h

theorem listMin_le {l : List ℝ} {v : ℝ} (hv : v ∈ l) : listMin l ≤ v := by
  cases l with
  | nil => simp at hv
  | cons a rest =>
    unfold listMin
    rcases List.mem_cons.mp hv with h | h
    · subst h; exact foldl_min_le_init rest v
    · exact foldl_min_le_mem rest a v h

theorem le_listMax {l : List ℝ} {v : ℝ} (hv : v ∈ l) : v ≤ listMax l := by
  cases l with
  | nil => simp at hv
  | cons a rest =>
    unfold listMax
    rcases List.mem_cons.mp hv with h | h
    · subst h; exact le_foldl_max_init rest v
    · exact mem_le_foldl_max rest a v h

theorem list_sum_const {c : ℝ} : ∀ {l : List ℝ}, (∀ x ∈ l, x = c) →
    l.sum = c * l.length := by
  intro l
  induction l with
  | nil => intro _; simp
  | cons x rest ih =>
    intro h
    simp only [List.sum_cons, List.length_cons]
    rw [h x (List.mem_cons_self x rest), ih (fun y hy => h y (List.mem_cons_of_mem x hy))]
    push_cast
    ring

theorem list_sum_pos_of_mem {l : List ℝ} (hall : ∀ x ∈ l, 0 ≤ x) {y : ℝ}
    (hy : y ∈ l) (hpos : 0 < y) : 0 < l.sum := by
  induction l with
  | nil => simp at hy
  | cons x rest ih =>
    simp only [List.sum_cons]
    rcases List.mem_cons.mp hy with h | h
    · subst h
      have : 0 ≤ rest.sum :=
        List.sum_nonneg (fun z hz => hall z (List.mem_cons_of_mem y hz))
      linarith
    · have h1 : 0 ≤ x := hall x (List.mem_cons_self x rest)
      have h2 : 0 < rest.sum := ih (fun z hz => hall z (List.mem_cons_of_mem x hz)) h
      linarith

theorem Mean_const {l : List ℝ} {c : ℝ} (hne : l ≠ []) (h : ∀ x ∈ l, x = c) :
    Mean l = c := by
  unfold Mean
  rw [list_sum_const h]
  have hlen : (l.length : ℝ) ≠ 0 := by
    simp only [ne_eq, Nat.cast_eq_zero, List.length_eq_zero]
    exact hne
  field_simp

theorem Variance_const {l : List ℝ} {c : ℝ} (h : ∀ x ∈ l, x = c) :
    Variance l = 0 := by
  by_cases hne : l = []
  · subst hne; simp [Variance]
  · unfold Variance
    have hall : ∀ x ∈ l.map (fun x => (x - Mean l) ^ 2), x = (0 : ℝ) := by
      intro x hx
      rcases List.mem_map.mp hx with ⟨y, hy, hxy⟩
      rw [← hxy, h y hy, Mean_const hne h, sub_self]
      simp
    rw [list_sum_const hall]
    simp

theorem Variance_pos {l : List ℝ} (hlen : 2 ≤ l.length) {x y : ℝ}
    (hx : x ∈ l) (hy : y ∈ l) (hxy : x ≠ y) : 0 < Variance l := by
  unfold Variance
  have hne : x ≠ Mean l ∨ y ≠ Mean l := by
    by_contra hc
    push_neg at hc
    exact hxy (hc.1.trans hc.2.symm)
  have hden : (0 : ℝ) < (l.length : ℝ) - 1 := by
    have : (2 : ℝ) ≤ (l.length : ℝ) := by exact_mod_cast hlen
    linarith
  apply div_pos _ hden
  have hz : ∃ z ∈ l, z ≠ Mean l := by
    rcases hne with h | h
    · exact ⟨x, hx, h⟩
    · exact ⟨y, hy, h⟩
  rcases hz with ⟨z, hz, hzne⟩
  apply list_sum_pos_of_mem (l := l.map (fun w => (w - Mean l) ^ 2))
  · intro w hw
    rcases List.mem_map.mp hw with ⟨u, _, hu⟩
    rw [← hu]
    positivity
  · exact List.mem_map.mpr ⟨z, hz, rfl⟩
  · have : z - Mean l ≠ 0 := sub_ne_zero.mpr hzne
    positivity

theorem StdDev_const {l : List ℝ} {c : ℝ} (h : ∀ x ∈ l, x = c) : StdDev l = 0 := by
  unfold StdDev
  rw [Variance_const h, Real.sqrt_zero]

theorem StdDev_ne_zero {l : List ℝ} (hlen : 2 ≤ l.length) {x y : ℝ}
    (hx : x ∈ l) (hy : y ∈ l) (hxy : x ≠ y) : StdDev l ≠ 0 := by
  unfold StdDev
  have h := Variance_pos hlen hx hy hxy
  intro hc
  rw [Real.sqrt_eq_zero (le_of_lt h)] at hc
  exact (ne_of_gt h) hc

/-! ### Rank assignment and sorting lemmas -/

theorem map_zipWith_rank (f : SectorScore → β)
    (hf : ∀ r i, f { r with Rank := i } = f r) :
    ∀ (l : List SectorScore) (s : ℕ),
      (List.zipWith (fun r i => { r with Rank := i }) l (List.range' s l.length)).map f
        = l.map f := by
  intro l
  induction l with
  | nil => intro s; rfl
  | cons a rest ih =>
    intro s
    rw [List.length_cons, List.range'_succ]
    simp only [List.zipWith, List.map_cons]
    rw [hf, ih]

theorem map_rank_zipWith :
    ∀ (l : List SectorScore) (s : ℕ),
      (List.zipWith (fun r i => { r with Rank := i }) l (List.range' s l.length)).map
          SectorScore.Rank
        = List.range' s l.length := by
  intro l
  induction l with
  | nil => intro s; rfl
  | cons a rest ih =>
    intro s
    rw [List.length_cons, List.range'_succ]
    simp only [List.zipWith, List.map_cons]
    rw [ih]

theorem mem_zipWith_rank {x : SectorScore} :
    ∀ {l : List SectorScore} {idx : List ℕ},
      x ∈ List.zipWith (fun r i => { r with Rank := i }) l idx →
        ∃ r ∈ l, ∃ i, x = { r with Rank := i } := by
  intro l
  induction l with
  | nil => intro idx h; simp at h
  | cons a rest ih =>
    intro idx h
    cases idx with
    | nil => simp at h
    | cons i idxr =>
      simp only [List.zipWith, List.mem_cons] at h
      rcases h with h | h
      · exact ⟨a, List.mem_cons_self a rest, i, h⟩
      · rcases ih h with ⟨r, hr, j, hj⟩
        exact ⟨r, List.mem_cons_of_mem a hr, j, hj⟩

theorem pair_sublist_or {x y : α} :
    ∀ {L : List α}, x ∈ L → y ∈ L → x ≠ y →
      List.Sublist [x, y] L ∨ List.Sublist [y, x] L := by
  intro L
  induction L with
  | nil => intro hx; simp at hx
  | cons c rest ih =>
    intro hx hy hxy
    by_cases hxc : x = c
    · subst hxc
      have hyr : y ∈ rest := by
        rcases List.mem_cons.mp hy with h | h
        · exact absurd h.symm hxy
        · exact h
      exact Or.inl (List.Sublist.cons₂ x (List.singleton_sublist.mpr hyr))
    · by_cases hyc : y = c
      · subst hyc
        have hxr : x ∈ rest := by
          rcases List.mem_cons.mp hx with h | h
          · exact absurd h hxc
          · exact h
        exact Or.inr (List.Sublist.cons₂ y (List.singleton_sublist.mpr hxr))
      · have hxr : x ∈ rest := by
          rcases List.mem_cons.mp hx with h | h
          · exact absurd h hxc
          · exact h
        have hyr : y ∈ rest := by
          rcases List.mem_cons.mp hy with h | h
          · exact absurd h hyc
          · exact h
        rcases ih hxr hyr hxy with h | h
        · exact Or.inl (h.cons c)
        · exact Or.inr (h.cons c)

theorem pair_sublist_antisym {x y : α} :
    ∀ {L : List α}, L.Nodup → List.Sublist [x, y] L → List.Sublist [y, x] L →
      x = y := by
  intro L
  induction L with
  | nil => intro _ h1; cases h1
  | cons c rest ih =>
    intro hnd h1 h2
    have hcr : c ∉ rest := (List.nodup_cons.mp hnd).1
    have hndr : rest.Nodup := (List.nodup_cons.mp hnd).2
    cases h1 with
    | cons _ h1t =>
      cases h2 with
      | cons _ h2t => exact ih hndr h1t h2t
      | cons₂ _ h2t =>
        -- y = c, and y occurs in rest through [x, y] <+ rest
        have : y ∈ rest := (List.Sublist.subset h1t) (by simp)
        exact absurd this hcr
    | cons₂ _ h1t =>
      -- x = c and [y] <+ rest
      cases h2 with
      | cons _ h2t =>
        have : x ∈ rest := (List.Sublist.subset h2t) (by simp)
        exact absurd this hcr
      | cons₂ _ h2t => rfl

theorem indexOf_lt_of_pair_sublist {a b : String} :
    ∀ {L : List String}, L.Nodup → List.Sublist [a, b] L →
      List.indexOf a L < List.indexOf b L := by
  intro L
  induction L with
  | nil => intro _ h; cases h
  | cons c rest ih =>
    intro hnd h
    have hcr : c ∉ rest := (List.nodup_cons.mp hnd).1
    have hndr : rest.Nodup := (List.nodup_cons.mp hnd).2
    cases h with
    | cons _ ht =>
      have har : a ∈ rest := (List.Sublist.subset ht) (by simp)
      have hbr : b ∈ rest := (List.Sublist.subset ht) (by simp)
      have hac : c ≠ a := fun h => hcr (h ▸ har)
      have hbc : c ≠ b := fun h => hcr (h ▸ hbr)
      rw [List.indexOf_cons_ne rest hac, List.indexOf_cons_ne rest hbc]
      exact Nat.succ_lt_succ (ih hndr ht)
    | cons₂ _ ht =>
      -- a = c, [b] <+ rest
      have hbr : b ∈ rest := (List.Sublist.subset ht) (by simp)
      have hbc : a ≠ b := fun h => hcr (h ▸ hbr)
      rw [List.indexOf_cons_self]
      rw [List.indexOf_cons_ne rest hbc]
      exact Nat.succ_pos _

/-! ### Structure of CalculateScores -/

theorem SectorNames_nodup : SectorNames.Nodup := by decide

theorem insertionSort_length (l : List SectorScore) :
    (List.insertionSort scoreGE l).length = l.length :=
  (List.perm_insertionSort scoreGE l).length_eq

/-- CalculateScores is the stable descending sort of a per-sector assembled
list, with 1-based ranks zipped on afterwards; the assembled list carries one
record per configured sector, whose opportunity score is the rounded
weighted blend of its five component scores. -/
theorem calculateScores_shape (s : SectorScorer) (d : AllData) :
    ∃ l : List SectorScore,
      l.map SectorScore.Sector = SectorNames ∧
      (∀ r ∈ l, r.OpportunityScore =
        round2 (s.Weights.momentum * r.MomentumScore +
          s.Weights.valuation * r.ValuationScore +
          s.Weights.growth * r.GrowthScore +
          s.Weights.innovation * r.InnovationScore +
          s.Weights.macroW * r.MacroScore)) ∧
      CalculateScores s d =
        List.zipWith (fun r i => { r with Rank := i }) (List.insertionSort scoreGE l)
          (List.range' 1 (List.insertionSort scoreGE l).length) := by
  simp only [CalculateScores]
  refine ⟨_, ?_, ?_, rfl⟩
  · rw [List.map_map]
    exact List.map_id' SectorNames
  · intro r hr
    rcases List.mem_map.mp hr with ⟨sector, _, rfl⟩
    rfl

theorem rankSorted_map (f : SectorScore → β)
    (hf : ∀ r i, f { r with Rank := i } = f r) (l : List SectorScore) :
    (List.zipWith (fun r i => { r with Rank := i }) (List.insertionSort scoreGE l)
        (List.range' 1 (List.insertionSort scoreGE l).length)).map f
      = (List.insertionSort scoreGE l).map f :=
  map_zipWith_rank f hf (List.insertionSort scoreGE l) 1

theorem rankSorted_length (l : List SectorScore) :
    (List.zipWith (fun r i => { r with Rank := i }) (List.insertionSort scoreGE l)
        (List.range' 1 (List.insertionSort scoreGE l).length)).length
      = l.length := by
  rw [List.length_zipWith]
  simp [insertionSort_length]

theorem rankSorted_ranks (l : List SectorScore) :
    (List.zipWith (fun r i => { r with Rank := i }) (List.insertionSort scoreGE l)
        (List.range' 1 (List.insertionSort scoreGE l).length)).map SectorScore.Rank
      = List.range' 1 l.length := by
  rw [map_rank_zipWith, insertionSort_length]

theorem rankSorted_sorted (l : List SectorScore) :
    (List.zipWith (fun r i => { r with Rank := i }) (List.insertionSort scoreGE l)
        (List.range' 1 (List.insertionSort scoreGE l).length)).Pairwise
      (fun a b => b.OpportunityScore ≤ a.OpportunityScore) := by
  have h1 : (List.zipWith (fun r i => { r with Rank := i }) (List.insertionSort scoreGE l)
      (List.range' 1 (List.insertionSort scoreGE l).length)).map SectorScore.OpportunityScore
      = (List.insertionSort scoreGE l).map SectorScore.OpportunityScore :=
    rankSorted_map SectorScore.OpportunityScore (fun r i => rfl) l
  have h2 := List.sorted_insertionSort scoreGE l
  rw [← List.pairwise_map (f := SectorScore.OpportunityScore)
    (R := fun x y => y ≤ x), h1, List.pairwise_map]
  exact h2

/-- Stability: any two equal-scored records of the ranked output keep the
relative order their sectors have in the configured sector list. -/
theorem rankSorted_stable (l : List SectorScore)
    (hsec : l.map SectorScore.Sector = SectorNames) :
    (List.zipWith (fun r i => { r with Rank := i }) (List.insertionSort scoreGE l)
        (List.range' 1 (List.insertionSort scoreGE l).length)).Pairwise
      (fun a b => a.OpportunityScore = b.OpportunityScore →
        List.indexOf a.Sector SectorNames < List.indexOf b.Sector SectorNames) := by
  have hmapnd : (l.map SectorScore.Sector).Nodup := by
    rw [hsec]; exact SectorNames_nodup
  have hlnd : l.Nodup := hmapnd.of_map
  have hsortnd : (List.insertionSort scoreGE l).Nodup :=
    (List.perm_insertionSort scoreGE l).nodup_iff.mpr hlnd
  -- transfer the goal from the ranked list to the sorted list
  have hkey : (List.zipWith (fun r i => { r with Rank := i }) (List.insertionSort scoreGE l)
      (List.range' 1 (List.insertionSort scoreGE l).length)).map
        (fun r => (r.OpportunityScore, r.Sector))
      = (List.insertionSort scoreGE l).map (fun r => (r.OpportunityScore, r.Sector)) :=
    rankSorted_map (fun r => (r.OpportunityScore, r.Sector)) (fun r i => rfl) l
  have hstab : (List.insertionSort scoreGE l).Pairwise
      (fun a b => a.OpportunityScore = b.OpportunityScore →
        List.indexOf a.Sector SectorNames < List.indexOf b.Sector SectorNames) := by
    rw [List.pairwise_iff_forall_sublist]
    intro x y hxy
    intro hopp
    have hxs : x ∈ List.insertionSort scoreGE l := hxy.subset (by simp)
    have hys : y ∈ List.insertionSort scoreGE l := hxy.subset (by simp)
    have hxl : x ∈ l := (List.mem_insertionSort scoreGE).mp hxs
    have hyl : y ∈ l := (List.mem_insertionSort scoreGE).mp hys
    have hne : x ≠ y := List.pairwise_iff_forall_sublist.mp hsortnd hxy
    rcases pair_sublist_or hxl hyl hne with hp | hp
    · have := hp.map SectorScore.Sector
      rw [hsec] at this
      exact indexOf_lt_of_pair_sublist SectorNames_nodup this
    · exfalso
      have hge : scoreGE y x := by
        unfold scoreGE
        rw [hopp]
      have := List.pair_sublist_insertionSort hge hp
      exact hne (pair_sublist_antisym hsortnd hxy this)
  have hQ : ((List.insertionSort scoreGE l).map
      (fun r => (r.OpportunityScore, r.Sector))).Pairwise
        (fun p q => p.1 = q.1 →
          List.indexOf p.2 SectorNames < List.indexOf q.2 SectorNames) :=
    List.pairwise_map.mpr hstab
  rw [← hkey] at hQ
  exact List.pairwise_map.mp hQ

/-- The record carrying rank 1 is the head of the output and holds the
greatest opportunity score. -/
theorem rank_one_max {out : List SectorScore}
    (hrank : out.map SectorScore.Rank = List.range' 1 out.length)
    (hdesc : out.Pairwise (fun a b => b.OpportunityScore ≤ a.OpportunityScore)) :
    ∀ x ∈ out, ∀ h ∈ out, h.Rank = 1 →
      x.OpportunityScore ≤ h.OpportunityScore := by
  intro x hx h hh h1
  cases out with
  | nil => simp at hx
  | cons h0 rest =>
    rw [List.length_cons, List.range'_succ, List.map_cons] at hrank
    injection hrank with hh0 hrest
    have hhead : h = h0 := by
      rcases List.mem_cons.mp hh with he | he
      · exact he
      · exfalso
        have : h.Rank ∈ rest.map SectorScore.Rank := List.mem_map_of_mem _ he
        rw [hrest] at this
        have := (List.mem_range'_1.mp this).1
        omega
    subst hhead
    rcases List.mem_cons.mp hx with he | he
    · rw [he]
    · exact (List.pairwise_cons.mp hdesc).1 x he

theorem sector_list_length {l : List SectorScore}
    (hsec : l.map SectorScore.Sector = SectorNames) : l.length = 11 := by
  have h := congrArg List.length hsec
  rw [List.length_map] at h
  exact h.trans rfl

/-- NewSectorScorer leaves a weight map whose sum is within the tolerance
of 1 untouched. -/
theorem newSectorScorer_of_sum_one {w : Weights} (hsum : sumWeights w = 1) :
    NewSectorScorer (some w) = ⟨w⟩ := by
  unfold NewSectorScorer
  simp only [Option.getD_some]
  rw [if_neg]
  rw [hsum]
  norm_num

theorem round2_zero : round2 0 = 0 := by
  rw [round2_eq 0 0 le_rfl (by norm_num) (by norm_num)]
  norm_num

/-! ### Branch characterizations of the normalizers -/

theorem normalizeScore_degenerate (values : List (String × ℝ)) (hib : Bool)
    (hne : values ≠ [])
    (hc : listMax (values.map Prod.snd) = listMin (values.map Prod.snd)) :
    NormalizeScore values hib = values.map (fun p => (p.1, (50 : ℝ))) := by
  simp only [NormalizeScore, if_neg hne, if_pos hc]

theorem normalizeScore_formula (values : List (String × ℝ)) (hib : Bool)
    (hne : values ≠ [])
    (hc : ¬ listMax (values.map Prod.snd) = listMin (values.map Prod.snd)) :
    NormalizeScore values hib = values.map (fun p =>
      (p.1, round2 (if !hib then
        100 - ((p.2 - listMin (values.map Prod.snd)) /
          (listMax (values.map Prod.snd) - listMin (values.map Prod.snd))) * 100
      else
        ((p.2 - listMin (values.map Prod.snd)) /
          (listMax (values.map Prod.snd) - listMin (values.map Prod.snd))) * 100))) := by
  simp only [NormalizeScore, if_neg hne, if_neg hc]

theorem normalizeScoreZ_degenerate (values : List (String × ℝ)) (hib : Bool)
    (hne : values ≠ []) (hstd : StdDev (values.map Prod.snd) = 0) :
    NormalizeScoreZScore values hib = values.map (fun p => (p.1, (50 : ℝ))) := by
  simp only [NormalizeScoreZScore, if_neg hne, if_pos hstd]

theorem normalizeScoreZ_formula (values : List (String × ℝ)) (hib : Bool)
    (hne : values ≠ []) (hstd : ¬ StdDev (values.map Prod.snd) = 0) :
    NormalizeScoreZScore values hib = values.map (fun p =>
      (p.1, round2 (if !hib then
        100 - (if (if 50 + (p.2 - Mean (values.map Prod.snd)) /
                StdDev (values.map Prod.snd) * 15 < 0 then (0 : ℝ)
              else 50 + (p.2 - Mean (values.map Prod.snd)) /
                StdDev (values.map Prod.snd) * 15) > 100 then (100 : ℝ)
            else (if 50 + (p.2 - Mean (values.map Prod.snd)) /
                StdDev (values.map Prod.snd) * 15 < 0 then (0 : ℝ)
              else 50 + (p.2 - Mean (values.map Prod.snd)) /
                StdDev (values.map Prod.snd) * 15))
      else
        (if (if 50 + (p.2 - Mean (values.map Prod.snd)) /
                StdDev (values.map Prod.snd) * 15 < 0 then (0 : ℝ)
              else 50 + (p.2 - Mean (values.map Prod.snd)) /
                StdDev (values.map Prod.snd) * 15) > 100 then (100 : ℝ)
            else (if 50 + (p.2 - Mean (values.map Prod.snd)) /
                StdDev (values.map Prod.snd) * 15 < 0 then (0 : ℝ)
              else 50 + (p.2 - Mean (values.map Prod.snd)) /
                StdDev (values.map Prod.snd) * 15))))) := by
  simp only [NormalizeScoreZScore, if_neg hne, if_neg hstd]

theorem normalizeScoreZSpec_formula (values : List (String × ℝ)) (hib : Bool)
    (hne : values ≠ [])
    (hstd : ¬ Real.sqrt ((((values.map Prod.snd).map (fun x =>
        (x - Mean (values.map Prod.snd)) ^ 2)).sum) /
        ((values.map Prod.snd).length : ℝ)) = 0) :
    NormalizeScoreZScoreSpec values hib = values.map (fun p =>
      (p.1, round2 (if !hib then
        100 - (if (if 50 + (p.2 - Mean (values.map Prod.snd)) /
                Real.sqrt ((((values.map Prod.snd).map (fun x =>
                  (x - Mean (values.map Prod.snd)) ^ 2)).sum) /
                  ((values.map Prod.snd).length : ℝ)) * 15 < 0 then (0 : ℝ)
              else 50 + (p.2 - Mean (values.map Prod.snd)) /
                Real.sqrt ((((values.map Prod.snd).map (fun x =>
                  (x - Mean (values.map Prod.snd)) ^ 2)).sum) /
                  ((values.map Prod.snd).length : ℝ)) * 15) > 100 then (100 : ℝ)
            else (if 50 + (p.2 - Mean (values.map Prod.snd)) /
                Real.sqrt ((((values.map Prod.snd).map (fun x =>
                  (x - Mean (values.map Prod.snd)) ^ 2)).sum) /
                  ((values.map Prod.snd).length : ℝ)) * 15 < 0 then (0 : ℝ)
              else 50 + (p.2 - Mean (values.map Prod.snd)) /
                Real.sqrt ((((values.map Prod.snd).map (fun x =>
                  (x - Mean (values.map Prod.snd)) ^ 2)).sum) /
                  ((values.map Prod.snd).length : ℝ)) * 15))
      else
        (if (if 50 + (p.2 - Mean (values.map Prod.snd)) /
                Real.sqrt ((((values.map Prod.snd).map (fun x =>
                  (x - Mean (values.map Prod.snd)) ^ 2)).sum) /
                  ((values.map Prod.snd).length : ℝ)) * 15 < 0 then (0 : ℝ)
              else 50 + (p.2 - Mean (values.map Prod.snd)) /
                Real.sqrt ((((values.map Prod.snd).map (fun x =>
                  (x - Mean (values.map Prod.snd)) ^ 2)).sum) /
                  ((values.map Prod.snd).length : ℝ)) * 15) > 100 then (100 : ℝ)
            else (if 50 + (p.2 - Mean (values.map Prod.snd)) /
                Real.sqrt ((((values.map Prod.snd).map (fun x =>
                  (x - Mean (values.map Prod.snd)) ^ 2)).sum) /
                  ((values.map Prod.snd).length : ℝ)) * 15 < 0 then (0 : ℝ)
              else 50 + (p.2 - Mean (values.map Prod.snd)) /
                Real.sqrt ((((values.map Prod.snd).map (fun x =>
                  (x - Mean (values.map Prod.snd)) ^ 2)).sum) /
                  ((values.map Prod.snd).length : ℝ)) * 15))))) := by
  simp only [NormalizeScoreZScoreSpec, if_neg hne, if_neg hstd]

theorem clamp_bounds (s : ℝ) :
    0 ≤ (if (if s < 0 then (0 : ℝ) else s) > 100 then (100 : ℝ)
          else (if s < 0 then (0 : ℝ) else s)) ∧
      (if (if s < 0 then (0 : ℝ) else s) > 100 then (100 : ℝ)
          else (if s < 0 then (0 : ℝ) else s)) ≤ 100 := by
  by_cases h1 : s < 0
  · rw [if_pos h1]
    norm_num
  · rw [if_neg h1]
    by_cases h2 : s > 100
    · rw [if_pos h2]
      norm_num
    · rw [if_neg h2]
      push_neg at h1 h2
      exact ⟨h1, h2⟩

theorem foldl_min_const : ∀ (l : List ℝ) (a : ℝ), (∀ x ∈ l, x = a) →
    l.foldl min a = a := by
  intro l
  induction l with
  | nil => intro a _; rfl
  | cons x rest ih =>
    intro a h
    simp only [List.foldl_cons]
    rw [h x (List.mem_cons_self x rest), min_self]
    exact ih a (fun y hy => h y (List.mem_cons_of_mem x hy))

theorem foldl_max_const : ∀ (l : List ℝ) (a : ℝ), (∀ x ∈ l, x = a) →
    l.foldl max a = a := by
  intro l
  induction l with
  | nil => intro a _; rfl
  | cons x rest ih =>
    intro a h
    simp only [List.foldl_cons]
    rw [h x (List.mem_cons_self x rest), max_self]
    exact ih a (fun y hy => h y (List.mem_cons_of_mem x hy))

theorem listMin_const {l : List ℝ} {c : ℝ} (h : ∀ x ∈ l, x = c) (hne : l ≠ []) :
    listMin l = c := by
  cases l with
  | nil => exact absurd rfl hne
  | cons a rest =>
    unfold listMin
    have ha : a = c := h a (List.mem_cons_self a rest)
    subst ha
    exact foldl_min_const rest a (fun y hy => h y (List.mem_cons_of_mem a hy))

theorem listMax_const {l : List ℝ} {c : ℝ} (h : ∀ x ∈ l, x = c) (hne : l ≠ []) :
    listMax l = c := by
  cases l with
  | nil => exact absurd rfl hne
  | cons a rest =>
    unfold listMax
    have ha : a = c := h a (List.mem_cons_self a rest)
    subst ha
    exact foldl_max_const rest a (fun y hy => h y (List.mem_cons_of_mem a hy))

/-- Key preservation of the z-score normalizer, for any input. -/
theorem normalizeZ_keys (values : List (String × ℝ)) (hib : Bool) :
    (NormalizeScoreZScore values hib).map Prod.fst = values.map Prod.fst := by
  by_cases hne : values = []
  · subst hne
    unfold NormalizeScoreZScore
    rw [if_pos rfl]
  by_cases hc : StdDev (values.map Prod.snd) = 0
  · rw [normalizeScoreZ_degenerate values hib hne hc]
    exact map_fst_map_value (fun _ => (50 : ℝ)) values
  · rw [normalizeScoreZ_formula values hib hne hc]
    exact map_fst_map_value (fun v => round2 (if !hib then
      100 - (if (if 50 + (v - Mean (values.map Prod.snd)) /
              StdDev (values.map Prod.snd) * 15 < 0 then (0 : ℝ)
            else 50 + (v - Mean (values.map Prod.snd)) /
              StdDev (values.map Prod.snd) * 15) > 100 then (100 : ℝ)
          else (if 50 + (v - Mean (values.map Prod.snd)) /
              StdDev (values.map Prod.snd) * 15 < 0 then (0 : ℝ)
            else 50 + (v - Mean (values.map Prod.snd)) /
              StdDev (values.map Prod.snd) * 15))
    else
      (if (if 50 + (v - Mean (values.map Prod.snd)) /
              StdDev (values.map Prod.snd) * 15 < 0 then (0 : ℝ)
            else 50 + (v - Mean (values.map Prod.snd)) /
              StdDev (values.map Prod.snd) * 15) > 100 then (100 : ℝ)
          else (if 50 + (v - Mean (values.map Prod.snd)) /
              StdDev (values.map Prod.snd) * 15 < 0 then (0 : ℝ)
            else 50 + (v - Mean (values.map Prod.snd)) /
              StdDev (values.map Prod.snd) * 15)))) values

/-! ### Claims -/

/-- C1: for every snapshot (including one in which every data collection is
empty) and every weight configuration, CalculateScores returns exactly one
score record per sector of the fixed configured ordered sector list
(11 sectors), never omitting a sector and never failing (the function is
total). -/
theorem C1_calculateScores_complete :
    ∀ (d : AllData) (w : Option Weights),
      ((CalculateScores (NewSectorScorer w) d).map SectorScore.Sector).Perm
          SectorNames ∧
      (CalculateScores (NewSectorScorer w) d).length = 11 ∧
      ∀ sec ∈ SectorNames,
        ((CalculateScores (NewSectorScorer w) d).map SectorScore.Sector).count sec
          = 1 := by
  intro d w
  obtain ⟨l, hsec, _, heq⟩ := calculateScores_shape (NewSectorScorer w) d
  have hperm : ((CalculateScores (NewSectorScorer w) d).map SectorScore.Sector).Perm
      SectorNames := by
    rw [heq, rankSorted_map SectorScore.Sector (fun r i => rfl) l]
    have h := (List.perm_insertionSort scoreGE l).map SectorScore.Sector
    rw [hsec] at h
    exact h
  refine ⟨hperm, ?_, ?_⟩
  · rw [heq, rankSorted_length l]
    exact sector_list_length hsec
  · intro sec hs
    rw [hperm.count_eq sec]
    exact List.count_eq_one_of_mem SectorNames_nodup hs

/-- C2: for every snapshot, the list returned by CalculateScores is sorted
descending by opportunity score, the Rank fields form the strict sequence
1..11, the rank-1 record holds the maximum opportunity score, and equal
opportunity scores keep the relative order of the configured sector list
(stability). -/
theorem C2_calculateScores_ranking :
    ∀ (d : AllData) (w : Option Weights),
      (CalculateScores (NewSectorScorer w) d).Pairwise
        (fun a b => b.OpportunityScore ≤ a.OpportunityScore) ∧
      (CalculateScores (NewSectorScorer w) d).map SectorScore.Rank =
        List.range' 1 11 ∧
      (∀ x ∈ CalculateScores (NewSectorScorer w) d,
        ∀ h ∈ CalculateScores (NewSectorScorer w) d, h.Rank = 1 →
          x.OpportunityScore ≤ h.OpportunityScore) ∧
      (CalculateScores (NewSectorScorer w) d).Pairwise
        (fun a b => a.OpportunityScore = b.OpportunityScore →
          List.indexOf a.Sector SectorNames < List.indexOf b.Sector SectorNames) := by
  intro d w
  obtain ⟨l, hsec, _, heq⟩ := calculateScores_shape (NewSectorScorer w) d
  have hlen : l.length = 11 := sector_list_length hsec
  refine ⟨?_, ?_, ?_, ?_⟩
  · rw [heq]
    exact rankSorted_sorted l
  · rw [heq, rankSorted_ranks l, hlen]
  · rw [heq]
    apply rank_one_max
    · rw [rankSorted_ranks l, rankSorted_length l]
    · exact rankSorted_sorted l
  · rw [heq]
    exact rankSorted_stable l hsec

/-- C7: for every snapshot and every weight map summing to 1.0 (used
unchanged by the scorer), each output record's opportunity score equals the
weighted sum of the five component scores rounded to two decimals, and so
lies within 0.01 of the exact weighted sum. -/
theorem C7_opportunity_weighted_sum :
    ∀ (d : AllData) (w : Weights), sumWeights w = 1 →
      List.Forall (fun r =>
        r.OpportunityScore =
          round2 (w.momentum * r.MomentumScore + w.valuation * r.ValuationScore +
            w.growth * r.GrowthScore + w.innovation * r.InnovationScore +
            w.macroW * r.MacroScore) ∧
        |r.OpportunityScore -
          (w.momentum * r.MomentumScore + w.valuation * r.ValuationScore +
            w.growth * r.GrowthScore + w.innovation * r.InnovationScore +
            w.macroW * r.MacroScore)| ≤ 1/100)
        (CalculateScores (NewSectorScorer (some w)) d) := by
  intro d w hsum
  have hW : (NewSectorScorer (some w)).Weights = w := by
    rw [newSectorScorer_of_sum_one hsum]
  obtain ⟨l, _, hrec, heq⟩ := calculateScores_shape (NewSectorScorer (some w)) d
  rw [heq, List.forall_iff_forall_mem]
  intro r hr
  rcases mem_zipWith_rank hr with ⟨r0, hr0, i, rfl⟩
  have hr0l : r0 ∈ l := (List.mem_insertionSort scoreGE).mp hr0
  have h := hrec r0 hr0l
  rw [hW] at h
  refine ⟨h, ?_⟩
  show |r0.OpportunityScore -
      (w.momentum * r0.MomentumScore + w.valuation * r0.ValuationScore +
        w.growth * r0.GrowthScore + w.innovation * r0.InnovationScore +
        w.macroW * r0.MacroScore)| ≤ 1/100
  rw [h]
  exact abs_round2_sub_le _

/-- C7 witness: the default weights sum to 1 and the theorem applies to them
at the empty snapshot. -/
theorem C7_opportunity_weighted_sum_witness :
    sumWeights DefaultWeights = 1 ∧
    List.Forall (fun r =>
      r.OpportunityScore =
        round2 (DefaultWeights.momentum * r.MomentumScore +
          DefaultWeights.valuation * r.ValuationScore +
          DefaultWeights.growth * r.GrowthScore +
          DefaultWeights.innovation * r.InnovationScore +
          DefaultWeights.macroW * r.MacroScore) ∧
      |r.OpportunityScore -
        (DefaultWeights.momentum * r.MomentumScore +
          DefaultWeights.valuation * r.ValuationScore +
          DefaultWeights.growth * r.GrowthScore +
          DefaultWeights.innovation * r.InnovationScore +
          DefaultWeights.macroW * r.MacroScore)| ≤ 1/100)
      (CalculateScores (NewSectorScorer (some DefaultWeights)) noData) :=
  ⟨by norm_num [sumWeights, DefaultWeights],
    C7_opportunity_weighted_sum noData DefaultWeights
      (by norm_num [sumWeights, DefaultWeights])⟩

/-- C10: a weight map of non-negative entries summing to exactly 0 (all five
weights 0) is not renormalized and raises no error, the weights are used
unchanged, and every opportunity score is then 0.0 while ranks are still
assigned 1..11. -/
theorem C10_zero_weights :
    ∀ w : Weights,
      0 ≤ w.momentum ∧ 0 ≤ w.valuation ∧ 0 ≤ w.growth ∧ 0 ≤ w.innovation ∧
        0 ≤ w.macroW →
      sumWeights w = 0 →
      NewSectorScorer (some w) = ⟨w⟩ ∧
      ∀ d : AllData,
        List.Forall (fun r => r.OpportunityScore = 0)
          (CalculateScores (NewSectorScorer (some w)) d) ∧
        (CalculateScores (NewSectorScorer (some w)) d).map SectorScore.Rank =
          List.range' 1 11 := by
  intro w hnn hsum
  have hz1 : w.momentum = 0 := by unfold sumWeights at hsum; linarith [hnn.1, hnn.2.1, hnn.2.2.1, hnn.2.2.2.1, hnn.2.2.2.2]
  have hz2 : w.valuation = 0 := by unfold sumWeights at hsum; linarith [hnn.1, hnn.2.1, hnn.2.2.1, hnn.2.2.2.1, hnn.2.2.2.2]
  have hz3 : w.growth = 0 := by unfold sumWeights at hsum; linarith [hnn.1, hnn.2.1, hnn.2.2.1, hnn.2.2.2.1, hnn.2.2.2.2]
  have hz4 : w.innovation = 0 := by unfold sumWeights at hsum; linarith [hnn.1, hnn.2.1, hnn.2.2.1, hnn.2.2.2.1, hnn.2.2.2.2]
  have hz5 : w.macroW = 0 := by unfold sumWeights at hsum; linarith [hnn.1, hnn.2.1, hnn.2.2.1, hnn.2.2.2.1, hnn.2.2.2.2]
  have hns : NewSectorScorer (some w) = ⟨w⟩ := by
    unfold NewSectorScorer
    simp only [Option.getD_some]
    rw [if_neg]
    rw [hsum]
    norm_num
  refine ⟨hns, fun d => ?_⟩
  obtain ⟨l, hsec, hrec, heq⟩ := calculateScores_shape (NewSectorScorer (some w)) d
  have hW : (NewSectorScorer (some w)).Weights = w := by rw [hns]
  constructor
  · rw [heq, List.forall_iff_forall_mem]
    intro r hr
    rcases mem_zipWith_rank hr with ⟨r0, hr0, i, rfl⟩
    have hr0l : r0 ∈ l := (List.mem_insertionSort scoreGE).mp hr0
    have h := hrec r0 hr0l
    rw [hW] at h
    show r0.OpportunityScore = 0
    rw [h, show w.momentum * r0.MomentumScore + w.valuation * r0.ValuationScore +
        w.growth * r0.GrowthScore + w.innovation * r0.InnovationScore +
        w.macroW * r0.MacroScore = (0 : ℝ) by
      rw [hz1, hz2, hz3, hz4, hz5]; ring]
    exact round2_zero
  · rw [heq, rankSorted_ranks l, sector_list_length hsec]

/-- C10 witness: the all-zero weight map at the empty snapshot. -/
theorem C10_zero_weights_witness :
    NewSectorScorer (some ⟨0, 0, 0, 0, 0⟩) = ⟨⟨0, 0, 0, 0, 0⟩⟩ ∧
    ∀ d : AllData,
      List.Forall (fun r => r.OpportunityScore = 0)
        (CalculateScores (NewSectorScorer (some ⟨0, 0, 0, 0, 0⟩)) d) ∧
      (CalculateScores (NewSectorScorer (some ⟨0, 0, 0, 0, 0⟩)) d).map
          SectorScore.Rank = List.range' 1 11 :=
  C10_zero_weights ⟨0, 0, 0, 0, 0⟩ (by norm_num) (by norm_num [sumWeights])

/-- C3: for every non-empty raw metric map and either polarity flag, both
NormalizeScore (min-max) and NormalizeScoreZScore return a map with exactly
the input's keys, every returned score lying in the interval [0, 100]. -/
theorem C3_normalize_keys_and_bounds :
    ∀ (values : List (String × ℝ)) (hib : Bool), values ≠ [] →
      (NormalizeScore values hib).map Prod.fst = values.map Prod.fst ∧
      List.Forall (fun p => 0 ≤ p.2 ∧ p.2 ≤ 100) (NormalizeScore values hib) ∧
      (NormalizeScoreZScore values hib).map Prod.fst = values.map Prod.fst ∧
      List.Forall (fun p => 0 ≤ p.2 ∧ p.2 ≤ 100)
        (NormalizeScoreZScore values hib) := by
  intro values hib hne
  refine ⟨?_, ?_, ?_, ?_⟩
  · by_cases hc : listMax (values.map Prod.snd) = listMin (values.map Prod.snd)
    · rw [normalizeScore_degenerate values hib hne hc]
      exact map_fst_map_value (fun _ => (50 : ℝ)) values
    · rw [normalizeScore_formula values hib hne hc]
      exact map_fst_map_value (fun v => round2 (if !hib then
        100 - ((v - listMin (values.map Prod.snd)) /
          (listMax (values.map Prod.snd) - listMin (values.map Prod.snd))) * 100
      else
        ((v - listMin (values.map Prod.snd)) /
          (listMax (values.map Prod.snd) - listMin (values.map Prod.snd))) * 100))
        values
  · by_cases hc : listMax (values.map Prod.snd) = listMin (values.map Prod.snd)
    · rw [normalizeScore_degenerate values hib hne hc, List.forall_iff_forall_mem]
      intro p hp
      rcases List.mem_map.mp hp with ⟨q, _, rfl⟩
      norm_num
    · rw [normalizeScore_formula values hib hne hc, List.forall_iff_forall_mem]
      intro p hp
      rcases List.mem_map.mp hp with ⟨q, hq, rfl⟩
      have hmem : q.2 ∈ values.map Prod.snd := List.mem_map_of_mem Prod.snd hq
      have h1 := listMin_le hmem
      have h2 := le_listMax hmem
      have h4 : 0 < listMax (values.map Prod.snd) - listMin (values.map Prod.snd) := by
        have h3 : listMin (values.map Prod.snd) ≤ listMax (values.map Prod.snd) :=
          le_trans h1 h2
        rcases lt_or_eq_of_le h3 with h | h
        · linarith
        · exact absurd h.symm hc
      have hs0 : 0 ≤ ((q.2 - listMin (values.map Prod.snd)) /
          (listMax (values.map Prod.snd) - listMin (values.map Prod.snd))) * 100 := by
        have := div_nonneg (by linarith : (0:ℝ) ≤ q.2 - listMin (values.map Prod.snd))
          (le_of_lt h4)
        linarith
      have hs100 : ((q.2 - listMin (values.map Prod.snd)) /
          (listMax (values.map Prod.snd) - listMin (values.map Prod.snd))) * 100
            ≤ 100 := by
        have hq1 : (q.2 - listMin (values.map Prod.snd)) /
            (listMax (values.map Prod.snd) - listMin (values.map Prod.snd)) ≤ 1 :=
          (div_le_one h4).mpr (by linarith)
        linarith
      cases hib
      · simp only [Bool.not_false, if_true]
        exact round2_mem_Icc _ (by linarith) (by linarith)
      · simp only [Bool.not_true, Bool.false_eq_true, if_false]
        exact round2_mem_Icc _ hs0 hs100
  · by_cases hc : StdDev (values.map Prod.snd) = 0
    · rw [normalizeScoreZ_degenerate values hib hne hc]
      exact map_fst_map_value (fun _ => (50 : ℝ)) values
    · rw [normalizeScoreZ_formula values hib hne hc]
      exact map_fst_map_value (fun v => round2 (if !hib then
        100 - (if (if 50 + (v - Mean (values.map Prod.snd)) /
                StdDev (values.map Prod.snd) * 15 < 0 then (0 : ℝ)
              else 50 + (v - Mean (values.map Prod.snd)) /
                StdDev (values.map Prod.snd) * 15) > 100 then (100 : ℝ)
            else (if 50 + (v - Mean (values.map Prod.snd)) /
                StdDev (values.map Prod.snd) * 15 < 0 then (0 : ℝ)
              else 50 + (v - Mean (values.map Prod.snd)) /
                StdDev (values.map Prod.snd) * 15))
      else
        (if (if 50 + (v - Mean (values.map Prod.snd)) /
                StdDev (values.map Prod.snd) * 15 < 0 then (0 : ℝ)
              else 50 + (v - Mean (values.map Prod.snd)) /
                StdDev (values.map Prod.snd) * 15) > 100 then (100 : ℝ)
            else (if 50 + (v - Mean (values.map Prod.snd)) /
                StdDev (values.map Prod.snd) * 15 < 0 then (0 : ℝ)
              else 50 + (v - Mean (values.map Prod.snd)) /
                StdDev (values.map Prod.snd) * 15)))) values
  · by_cases hc : StdDev (values.map Prod.snd) = 0
    · rw [normalizeScoreZ_degenerate values hib hne hc, List.forall_iff_forall_mem]
      intro p hp
      rcases List.mem_map.mp hp with ⟨q, _, rfl⟩
      norm_num
    · rw [normalizeScoreZ_formula values hib hne hc, List.forall_iff_forall_mem]
      intro p hp
      rcases List.mem_map.mp hp with ⟨q, _, rfl⟩
      have hcl := clamp_bounds (50 + (q.2 - Mean (values.map Prod.snd)) /
        StdDev (values.map Prod.snd) * 15)
      cases hib
      · simp only [Bool.not_false, if_true]
        exact round2_mem_Icc _ (by linarith [hcl.1, hcl.2]) (by linarith [hcl.1, hcl.2])
      · simp only [Bool.not_true, Bool.false_eq_true, if_false]
        exact round2_mem_Icc _ hcl.1 hcl.2

/-- C3 witness: a concrete two-entry map. -/
theorem C3_normalize_keys_and_bounds_witness :
    ([("A", (1 : ℝ)), ("B", 2)] : List (String × ℝ)) ≠ [] ∧
    ((NormalizeScore [("A", (1 : ℝ)), ("B", 2)] true).map Prod.fst =
        ([("A", (1 : ℝ)), ("B", 2)] : List (String × ℝ)).map Prod.fst ∧
      List.Forall (fun p => 0 ≤ p.2 ∧ p.2 ≤ 100)
        (NormalizeScore [("A", (1 : ℝ)), ("B", 2)] true) ∧
      (NormalizeScoreZScore [("A", (1 : ℝ)), ("B", 2)] true).map Prod.fst =
        ([("A", (1 : ℝ)), ("B", 2)] : List (String × ℝ)).map Prod.fst ∧
      List.Forall (fun p => 0 ≤ p.2 ∧ p.2 ≤ 100)
        (NormalizeScoreZScore [("A", (1 : ℝ)), ("B", 2)] true)) :=
  ⟨by simp, C3_normalize_keys_and_bounds [("A", 1), ("B", 2)] true (by simp)⟩

/-- C4: on a non-empty raw metric map whose values are all equal, both
normalization methods return exactly 50.0 for every key. -/
theorem C4_all_equal_scores_50 :
    ∀ (values : List (String × ℝ)) (hib : Bool) (c : ℝ), values ≠ [] →
      (∀ p ∈ values, p.2 = c) →
      NormalizeScore values hib = values.map (fun p => (p.1, (50 : ℝ))) ∧
      NormalizeScoreZScore values hib = values.map (fun p => (p.1, (50 : ℝ))) := by
  intro values hib c hne hall
  have hvne : values.map Prod.snd ≠ [] := by
    intro h
    exact hne (List.map_eq_nil_iff.mp h)
  have hvals : ∀ x ∈ values.map Prod.snd, x = c := by
    intro x hx
    rcases List.mem_map.mp hx with ⟨q, hq, rfl⟩
    exact hall q hq
  constructor
  · exact normalizeScore_degenerate values hib hne
      ((listMax_const hvals hvne).trans (listMin_const hvals hvne).symm)
  · exact normalizeScoreZ_degenerate values hib hne (StdDev_const hvals)

/-- C4 witness: a concrete constant map. -/
theorem C4_all_equal_scores_50_witness :
    ([("A", (3 : ℝ)), ("B", 3)] : List (String × ℝ)) ≠ [] ∧
    (∀ p ∈ ([("A", (3 : ℝ)), ("B", 3)] : List (String × ℝ)), p.2 = 3) ∧
    (NormalizeScore [("A", (3 : ℝ)), ("B", 3)] false =
        ([("A", (3 : ℝ)), ("B", 3)] : List (String × ℝ)).map (fun p => (p.1, (50 : ℝ))) ∧
      NormalizeScoreZScore [("A", (3 : ℝ)), ("B", 3)] false =
        ([("A", (3 : ℝ)), ("B", 3)] : List (String × ℝ)).map (fun p => (p.1, (50 : ℝ)))) :=
  ⟨by simp, by simp,
    C4_all_equal_scores_50 [("A", 3), ("B", 3)] false 3 (by simp) (by simp)⟩

/-- C9 (amended): for every raw metric map and each normalization method,
the `higherIsBetter=false` score of an entity equals `100 - x` where `x` is
the `higherIsBetter=true` score — or exceeds it by exactly 0.01, which
happens precisely when the unrounded score sits on a half-cent rounding tie
(both runs then round half away from zero upwards). -/
theorem C9_polarity_inversion_amended :
    ∀ values : List (String × ℝ),
      List.Forall (fun p => ∀ x y,
        alookup p.1 (NormalizeScore values true) = some x →
        alookup p.1 (NormalizeScore values false) = some y →
        (y = 100 - x ∨ y = 100 - x + 1/100)) values ∧
      List.Forall (fun p => ∀ x y,
        alookup p.1 (NormalizeScoreZScore values true) = some x →
        alookup p.1 (NormalizeScoreZScore values false) = some y →
        (y = 100 - x ∨ y = 100 - x + 1/100)) values := by
  intro values
  by_cases hne : values = []
  · subst hne
    exact ⟨trivial, trivial⟩
  constructor
  · rw [List.forall_iff_forall_mem]
    intro p _ x y hx hy
    by_cases hc : listMax (values.map Prod.snd) = listMin (values.map Prod.snd)
    · rw [normalizeScore_degenerate values true hne hc] at hx
      rw [normalizeScore_degenerate values false hne hc] at hy
      rcases alookup_map_some (f := fun _ => (50 : ℝ)) hx with ⟨v, _, hxv⟩
      rcases alookup_map_some (f := fun _ => (50 : ℝ)) hy with ⟨v2, _, hyv⟩
      left
      rw [hxv, hyv]
      norm_num
    · rw [normalizeScore_formula values true hne hc] at hx
      rw [normalizeScore_formula values false hne hc] at hy
      simp only [Bool.not_true, Bool.not_false, Bool.false_eq_true, if_true,
        if_false] at hx hy
      rcases alookup_map_some
        (f := fun v => round2 (((v - listMin (values.map Prod.snd)) /
          (listMax (values.map Prod.snd) - listMin (values.map Prod.snd))) * 100))
        hx with ⟨v, hv, hxv⟩
      rcases alookup_map_some
        (f := fun v => round2 (100 - ((v - listMin (values.map Prod.snd)) /
          (listMax (values.map Prod.snd) - listMin (values.map Prod.snd))) * 100))
        hy with ⟨v2, hv2, hyv⟩
      have hvv : v2 = v := by
        rw [hv] at hv2
        exact (Option.some.inj hv2).symm
      subst hvv
      have hvm : (p.1, v2) ∈ values := alookup_mem hv
      have hmem : v2 ∈ values.map Prod.snd := List.mem_map_of_mem Prod.snd hvm
      have h1 := listMin_le hmem
      have h2 := le_listMax hmem
      have h4 : 0 < listMax (values.map Prod.snd) - listMin (values.map Prod.snd) := by
        have h3 : listMin (values.map Prod.snd) ≤ listMax (values.map Prod.snd) :=
          le_trans h1 h2
        rcases lt_or_eq_of_le h3 with h | h
        · linarith
        · exact absurd h.symm hc
      have hs0 : 0 ≤ ((v2 - listMin (values.map Prod.snd)) /
          (listMax (values.map Prod.snd) - listMin (values.map Prod.snd))) * 100 := by
        have := div_nonneg (by linarith : (0:ℝ) ≤ v2 - listMin (values.map Prod.snd))
          (le_of_lt h4)
        linarith
      have hs100 : ((v2 - listMin (values.map Prod.snd)) /
          (listMax (values.map Prod.snd) - listMin (values.map Prod.snd))) * 100
            ≤ 100 := by
        have hq1 : (v2 - listMin (values.map Prod.snd)) /
            (listMax (values.map Prod.snd) - listMin (values.map Prod.snd)) ≤ 1 :=
          (div_le_one h4).mpr (by linarith)
        linarith
      rw [hxv, hyv]
      exact round2_complement _ hs0 hs100
  · rw [List.forall_iff_forall_mem]
    intro p _ x y hx hy
    by_cases hc : StdDev (values.map Prod.snd) = 0
    · rw [normalizeScoreZ_degenerate values true hne hc] at hx
      rw [normalizeScoreZ_degenerate values false hne hc] at hy
      rcases alookup_map_some (f := fun _ => (50 : ℝ)) hx with ⟨v, _, hxv⟩
      rcases alookup_map_some (f := fun _ => (50 : ℝ)) hy with ⟨v2, _, hyv⟩
      left
      rw [hxv, hyv]
      norm_num
    · rw [normalizeScoreZ_formula values true hne hc] at hx
      rw [normalizeScoreZ_formula values false hne hc] at hy
      simp only [Bool.not_true, Bool.not_false, Bool.false_eq_true, if_true,
        if_false] at hx hy
      rcases alookup_map_some
        (f := fun v => round2 (if (if 50 + (v - Mean (values.map Prod.snd)) /
                StdDev (values.map Prod.snd) * 15 < 0 then (0 : ℝ)
              else 50 + (v - Mean (values.map Prod.snd)) /
                StdDev (values.map Prod.snd) * 15) > 100 then (100 : ℝ)
            else (if 50 + (v - Mean (values.map Prod.snd)) /
                StdDev (values.map Prod.snd) * 15 < 0 then (0 : ℝ)
              else 50 + (v - Mean (values.map Prod.snd)) /
                StdDev (values.map Prod.snd) * 15)))
        hx with ⟨v, hv, hxv⟩
      rcases alookup_map_some
        (f := fun v => round2 (100 - (if (if 50 + (v - Mean (values.map Prod.snd)) /
                StdDev (values.map Prod.snd) * 15 < 0 then (0 : ℝ)
              else 50 + (v - Mean (values.map Prod.snd)) /
                StdDev (values.map Prod.snd) * 15) > 100 then (100 : ℝ)
            else (if 50 + (v - Mean (values.map Prod.snd)) /
                StdDev (values.map Prod.snd) * 15 < 0 then (0 : ℝ)
              else 50 + (v - Mean (values.map Prod.snd)) /
                StdDev (values.map Prod.snd) * 15))))
        hy with ⟨v2, hv2, hyv⟩
      have hvv : v2 = v := by
        rw [hv] at hv2
        exact (Option.some.inj hv2).symm
      subst hvv
      have hcl := clamp_bounds (50 + (v2 - Mean (values.map Prod.snd)) /
        StdDev (values.map Prod.snd) * 15)
      rw [hxv, hyv]
      exact round2_complement _ hcl.1 hcl.2

/-- C9 counterexample: on the raw map A=0, B=1, C=32 the min-max scores are
B=3.13 in the higher-is-better run (3.125 rounded up at the half-cent tie)
and B=96.88 in the inverted run, while `100 - 3.13 = 96.87`: the inverted
run is not `100 - x` of the non-inverted run. -/
theorem C9_polarity_inversion_counterexample :
    alookup "B" (NormalizeScore [("A", (0 : ℝ)), ("B", 1), ("C", 32)] false) ≠
      (alookup "B" (NormalizeScore [("A", (0 : ℝ)), ("B", 1), ("C", 32)] true)).map
        (fun x => 100 - x) := by
  have hne : ([("A", (0 : ℝ)), ("B", 1), ("C", 32)] : List (String × ℝ)) ≠ [] := by
    simp
  have hmin : listMin (([("A", (0 : ℝ)), ("B", 1), ("C", 32)] :
      List (String × ℝ)).map Prod.snd) = 0 := by
    simp only [List.map_cons, List.map_nil, listMin, List.foldl]
    norm_num
  have hmax : listMax (([("A", (0 : ℝ)), ("B", 1), ("C", 32)] :
      List (String × ℝ)).map Prod.snd) = 32 := by
    simp only [List.map_cons, List.map_nil, listMax, List.foldl]
    norm_num
  have hc : ¬ listMax (([("A", (0 : ℝ)), ("B", 1), ("C", 32)] :
      List (String × ℝ)).map Prod.snd) =
      listMin (([("A", (0 : ℝ)), ("B", 1), ("C", 32)] :
      List (String × ℝ)).map Prod.snd) := by
    rw [hmin, hmax]
    norm_num
  rw [normalizeScore_formula _ true hne hc, normalizeScore_formula _ false hne hc,
    hmin, hmax]
  simp only [Bool.not_true, Bool.not_false, Bool.false_eq_true, if_true, if_false,
    List.map_cons, List.map_nil, alookup]
  have h1 : round2 ((((1 : ℝ) - 0) / (32 - 0)) * 100) = 313 / 100 := by
    rw [round2_eq _ 313 (by norm_num) (by norm_num) (by norm_num)]
    norm_num
  have h2 : round2 (100 - (((1 : ℝ) - 0) / (32 - 0)) * 100) = 9688 / 100 := by
    rw [round2_eq _ 9688 (by norm_num) (by norm_num) (by norm_num)]
    norm_num
  rw [h1, h2, if_neg (by decide : ¬ ("A" : String) = "B"),
    if_neg (by decide : ¬ ("A" : String) = "B"), Option.map_some']
  intro hcontra
  have := Option.some.inj hcontra
  norm_num at this

/-- C6 (amended): a supplied weight map with positive sum `s` and
`|s - 1| > 0.01` is rescaled by `1/s` before use, and the effective weights
then sum exactly to 1; the restriction to positive sums is forced by the
source's `sum > 0` guard. -/
theorem C6_weight_rescaling_amended :
    ∀ w : Weights, 0 < sumWeights w → |sumWeights w - 1| > 0.01 →
      NewSectorScorer (some w) =
        ⟨⟨w.momentum / sumWeights w, w.valuation / sumWeights w,
          w.growth / sumWeights w, w.innovation / sumWeights w,
          w.macroW / sumWeights w⟩⟩ ∧
      sumWeights (NewSectorScorer (some w)).Weights = 1 := by
  intro w h1 h2
  have hs : NewSectorScorer (some w) =
      ⟨⟨w.momentum / sumWeights w, w.valuation / sumWeights w,
        w.growth / sumWeights w, w.innovation / sumWeights w,
        w.macroW / sumWeights w⟩⟩ := by
    unfold NewSectorScorer
    simp only [Option.getD_some]
    rw [if_pos ⟨h1, h2⟩]
  refine ⟨hs, ?_⟩
  rw [hs]
  show w.momentum / sumWeights w + w.valuation / sumWeights w +
      w.growth / sumWeights w + w.innovation / sumWeights w +
      w.macroW / sumWeights w = 1
  rw [div_add_div_same, div_add_div_same, div_add_div_same, div_add_div_same]
  exact div_self (ne_of_gt h1)

/-- C6 counterexample: the all-zero weight map sums to 0 with
`|0 - 1| > 0.01`, yet NewSectorScorer does not rescale it (the `sum > 0`
guard fails) and the effective weights do not sum to 1. -/
theorem C6_weight_rescaling_counterexample :
    |sumWeights ⟨0, 0, 0, 0, 0⟩ - 1| > 0.01 ∧
    NewSectorScorer (some ⟨0, 0, 0, 0, 0⟩) = ⟨⟨0, 0, 0, 0, 0⟩⟩ ∧
    sumWeights (NewSectorScorer (some ⟨0, 0, 0, 0, 0⟩)).Weights ≠ 1 := by
  have hs : NewSectorScorer (some ⟨0, 0, 0, 0, 0⟩) = ⟨⟨0, 0, 0, 0, 0⟩⟩ := by
    unfold NewSectorScorer
    simp only [Option.getD_some]
    rw [if_neg]
    norm_num [sumWeights]
  refine ⟨by norm_num [sumWeights], hs, ?_⟩
  rw [hs]
  norm_num [sumWeights]

/-- C6 witness: weights of 2 each sum to 10 and are rescaled to 0.2 each. -/
theorem C6_weight_rescaling_witness :
    0 < sumWeights ⟨2, 2, 2, 2, 2⟩ ∧ |sumWeights ⟨2, 2, 2, 2, 2⟩ - 1| > 0.01 ∧
    NewSectorScorer (some ⟨2, 2, 2, 2, 2⟩) = ⟨⟨0.2, 0.2, 0.2, 0.2, 0.2⟩⟩ ∧
    sumWeights (NewSectorScorer (some ⟨2, 2, 2, 2, 2⟩)).Weights = 1 := by
  have h := C6_weight_rescaling_amended ⟨2, 2, 2, 2, 2⟩
    (by norm_num [sumWeights]) (by norm_num [sumWeights])
  refine ⟨by norm_num [sumWeights], by norm_num [sumWeights], ?_, h.2⟩
  rw [h.1]
  norm_num [sumWeights]

/-- C8 (amended): CalculateInnovationScore excludes entries with R&D
intensity ≤ 0 from the normalization input set; when that filtered set is
non-empty, every configured sector absent from it receives the penalized
default 30; but when the filtered set is empty (as it is when all entries
are ≤ 0, or when the map is empty) the calculator short-circuits and every
sector receives the neutral 50 instead. -/
theorem C8_innovation_defaults_amended :
    ∀ rdData : List (String × ℝ),
      (∀ p ∈ rdData, (p ∈ rdData.filter (fun q => q.2 > 0) ↔ 0 < p.2)) ∧
      (rdData.filter (fun q => q.2 > 0) ≠ [] →
        ∀ sec ∈ SectorNames,
          sec ∉ (rdData.filter (fun q => q.2 > 0)).map Prod.fst →
          alookup sec (CalculateInnovationScore rdData) = some 30) ∧
      (rdData.filter (fun q => q.2 > 0) = [] →
        CalculateInnovationScore rdData = defaultScores) := by
  intro rdData
  refine ⟨?_, ?_, ?_⟩
  · intro p hp
    rw [List.mem_filter]
    simp [hp]
  · intro hvne sec hsec hnotin
    have hrne : rdData ≠ [] := by
      intro h
      subst h
      simp at hvne
    unfold CalculateInnovationScore
    rw [if_neg hrne, if_neg hvne]
    have hnone : alookup sec
        (NormalizeScoreZScore (rdData.filter (fun p => p.2 > 0)) true) = none := by
      rw [alookup_eq_none_iff, normalizeZ_keys]
      exact hnotin
    rw [alookup_append_right hnone, alookup_map_const, if_pos]
    rw [List.mem_filter]
    refine ⟨hsec, ?_⟩
    rw [hnone]
    rfl
  · intro hv
    unfold CalculateInnovationScore
    by_cases hr : rdData = []
    · rw [if_pos hr]
    · rw [if_neg hr, if_pos hv]

/-- C8 counterexample: with the single entry Energy ↦ -1 the filtered
normalization input set is empty; Energy (a configured sector absent from
that set) receives 50, not the claimed penalized default 30. -/
theorem C8_innovation_defaults_counterexample :
    ("Energy" ∈ SectorNames) ∧
    (([("Energy", (-1 : ℝ))] : List (String × ℝ)).filter (fun q => q.2 > 0) = []) ∧
    alookup "Energy" (CalculateInnovationScore [("Energy", (-1 : ℝ))]) = some 50 ∧
    (50 : ℝ) ≠ 30 := by
  have hf : (([("Energy", (-1 : ℝ))] : List (String × ℝ)).filter
      (fun q => q.2 > 0) = []) := by
    norm_num [List.filter]
  refine ⟨by decide, hf, ?_, by norm_num⟩
  unfold CalculateInnovationScore
  rw [if_neg (by simp), if_pos hf]
  unfold defaultScores
  rw [alookup_map_const, if_pos (by decide)]

/-- C8 witness: with Energy and Health Care positive and Financials
negative, Financials is excluded and the absent configured sector
Financials receives 30. -/
theorem C8_innovation_defaults_witness :
    (∀ p ∈ ([("Energy", (1 : ℝ)), ("Health Care", 3), ("Financials", -2)] :
        List (String × ℝ)),
      (p ∈ ([("Energy", (1 : ℝ)), ("Health Care", 3), ("Financials", -2)] :
        List (String × ℝ)).filter (fun q => q.2 > 0) ↔ 0 < p.2)) ∧
    (([("Energy", (1 : ℝ)), ("Health Care", 3), ("Financials", -2)] :
        List (String × ℝ)).filter (fun q => q.2 > 0) ≠ [] →
      ∀ sec ∈ SectorNames,
        sec ∉ (([("Energy", (1 : ℝ)), ("Health Care", 3), ("Financials", -2)] :
          List (String × ℝ)).filter (fun q => q.2 > 0)).map Prod.fst →
        alookup sec (CalculateInnovationScore
          [("Energy", (1 : ℝ)), ("Health Care", 3), ("Financials", -2)]) =
          some 30) ∧
    (([("Energy", (1 : ℝ)), ("Health Care", 3), ("Financials", -2)] :
        List (String × ℝ)).filter (fun q => q.2 > 0) = [] →
      CalculateInnovationScore
        [("Energy", (1 : ℝ)), ("Health Care", 3), ("Financials", -2)] =
        defaultScores) :=
  C8_innovation_defaults_amended
    [("Energy", (1 : ℝ)), ("Health Care", 3), ("Financials", -2)]

/-- C5 (amended): on a raw metric map with at least two distinct values,
NormalizeScoreZScore computes each entity's score as `50 + 15*(v - mean)/std`
where `mean` is the arithmetic mean of the present values and `std` is the
SAMPLE standard deviation (squared deviations divided by `n - 1`, the
unbiased estimator of the statistics library) — not the population standard
deviation the specification names — then clamps to [0,100], replaces the
score by `100 - score` when the polarity is lower-is-better, and rounds to
2 decimal places. -/
theorem C5_zscore_sample_std_amended :
    ∀ (values : List (String × ℝ)) (hib : Bool),
      (values.map Prod.fst).Nodup →
      (∃ p ∈ values, ∃ q ∈ values, p.2 ≠ q.2) →
      (Mean (values.map Prod.snd) =
        (values.map Prod.snd).sum / (values.map Prod.snd).length) ∧
      (StdDev (values.map Prod.snd) =
        Real.sqrt ((((values.map Prod.snd).map (fun x =>
          (x - Mean (values.map Prod.snd)) ^ 2)).sum) /
          (((values.map Prod.snd).length : ℝ) - 1))) ∧
      List.Forall (fun p =>
        alookup p.1 (NormalizeScoreZScore values hib) = some (round2 (
          if !hib then
            100 - (if (if 50 + (p.2 - Mean (values.map Prod.snd)) /
                    StdDev (values.map Prod.snd) * 15 < 0 then (0 : ℝ)
                  else 50 + (p.2 - Mean (values.map Prod.snd)) /
                    StdDev (values.map Prod.snd) * 15) > 100 then (100 : ℝ)
                else (if 50 + (p.2 - Mean (values.map Prod.snd)) /
                    StdDev (values.map Prod.snd) * 15 < 0 then (0 : ℝ)
                  else 50 + (p.2 - Mean (values.map Prod.snd)) /
                    StdDev (values.map Prod.snd) * 15))
          else
            (if (if 50 + (p.2 - Mean (values.map Prod.snd)) /
                    StdDev (values.map Prod.snd) * 15 < 0 then (0 : ℝ)
                  else 50 + (p.2 - Mean (values.map Prod.snd)) /
                    StdDev (values.map Prod.snd) * 15) > 100 then (100 : ℝ)
                else (if 50 + (p.2 - Mean (values.map Prod.snd)) /
                    StdDev (values.map Prod.snd) * 15 < 0 then (0 : ℝ)
                  else 50 + (p.2 - Mean (values.map Prod.snd)) /
                    StdDev (values.map Prod.snd) * 15))))) values := by
  intro values hib hnd hdist
  obtain ⟨p0, hp0, q0, hq0, hpq⟩ := hdist
  have hne : values ≠ [] := by
    intro h
    subst h
    simp at hp0
  have hlen : 2 ≤ (values.map Prod.snd).length := by
    rw [List.length_map]
    exact two_mem_two_le_length hp0 hq0 (fun h => hpq (by rw [h]))
  have hstd : StdDev (values.map Prod.snd) ≠ 0 :=
    StdDev_ne_zero hlen (List.mem_map_of_mem Prod.snd hp0)
      (List.mem_map_of_mem Prod.snd hq0) hpq
  refine ⟨rfl, rfl, ?_⟩
  rw [normalizeScoreZ_formula values hib hne hstd, List.forall_iff_forall_mem]
  intro p hp
  exact alookup_map_value_eq (fun v => round2 (
    if !hib then
      100 - (if (if 50 + (v - Mean (values.map Prod.snd)) /
              StdDev (values.map Prod.snd) * 15 < 0 then (0 : ℝ)
            else 50 + (v - Mean (values.map Prod.snd)) /
              StdDev (values.map Prod.snd) * 15) > 100 then (100 : ℝ)
          else (if 50 + (v - Mean (values.map Prod.snd)) /
              StdDev (values.map Prod.snd) * 15 < 0 then (0 : ℝ)
            else 50 + (v - Mean (values.map Prod.snd)) /
              StdDev (values.map Prod.snd) * 15))
    else
      (if (if 50 + (v - Mean (values.map Prod.snd)) /
              StdDev (values.map Prod.snd) * 15 < 0 then (0 : ℝ)
            else 50 + (v - Mean (values.map Prod.snd)) /
              StdDev (values.map Prod.snd) * 15) > 100 then (100 : ℝ)
          else (if 50 + (v - Mean (values.map Prod.snd)) /
              StdDev (values.map Prod.snd) * 15 < 0 then (0 : ℝ)
            else 50 + (v - Mean (values.map Prod.snd)) /
              StdDev (values.map Prod.snd) * 15))))
    (alookup_of_nodup hnd hp)

/-- C5 counterexample: on the raw map A=1, B=3 the implementation divides
by the sample standard deviation sqrt 2 and scores A as 39.39, while the
specification's population-standard-deviation formula (its direct
transcription NormalizeScoreZScoreSpec) scores A as 35. -/
theorem C5_zscore_sample_std_counterexample :
    alookup "A" (NormalizeScoreZScore [("A", (1 : ℝ)), ("B", 3)] true) =
      some (3939 / 100) ∧
    alookup "A" (NormalizeScoreZScoreSpec [("A", (1 : ℝ)), ("B", 3)] true) =
      some 35 ∧
    alookup "A" (NormalizeScoreZScore [("A", (1 : ℝ)), ("B", 3)] true) ≠
      alookup "A" (NormalizeScoreZScoreSpec [("A", (1 : ℝ)), ("B", 3)] true) := by
  have hne : ([("A", (1 : ℝ)), ("B", 3)] : List (String × ℝ)) ≠ [] := by simp
  have hmap : (([("A", (1 : ℝ)), ("B", 3)] : List (String × ℝ)).map Prod.snd) =
      [1, 3] := rfl
  have hmean : Mean [(1 : ℝ), 3] = 2 := by
    norm_num [Mean]
  have hvar : Variance [(1 : ℝ), 3] = 2 := by
    unfold Variance
    rw [hmean]
    norm_num
  have hstd : StdDev [(1 : ℝ), 3] = Real.sqrt 2 := by
    unfold StdDev
    rw [hvar]
  have hstdne : StdDev ((([("A", (1 : ℝ)), ("B", 3)] : List (String × ℝ))).map
      Prod.snd) ≠ 0 := by
    rw [hmap, hstd]
    exact Real.sqrt_ne_zero'.mpr (by norm_num)
  have hA : alookup "A" ([("A", (1 : ℝ)), ("B", 3)] : List (String × ℝ)) =
      some 1 := by
    simp [alookup]
  have ht2 : Real.sqrt 2 ^ 2 = 2 := Real.sq_sqrt (by norm_num)
  have ht0 : 0 < Real.sqrt 2 := Real.sqrt_pos.mpr (by norm_num)
  have htlo : (1.4142 : ℝ) < Real.sqrt 2 := by nlinarith
  have hthi : Real.sqrt 2 < (1.4143 : ℝ) := by nlinarith
  have h15hi : 15 / Real.sqrt 2 < 10.607 := by
    rw [div_lt_iff₀ ht0]
    nlinarith
  have h15lo : (10.605 : ℝ) < 15 / Real.sqrt 2 := by
    rw [lt_div_iff₀ ht0]
    nlinarith
  have hsimp : (50 : ℝ) + (1 - 2) / Real.sqrt 2 * 15 = 50 - 15 / Real.sqrt 2 := by
    ring
  have hcode : alookup "A" (NormalizeScoreZScore [("A", (1 : ℝ)), ("B", 3)] true) =
      some (3939 / 100) := by
    rw [normalizeScoreZ_formula _ true hne hstdne]
    simp only [Bool.not_true, Bool.false_eq_true, if_false]
    refine (alookup_map_value_eq (fun v => round2
      (if (if 50 + (v - Mean ((([("A", (1 : ℝ)), ("B", 3)] :
              List (String × ℝ))).map Prod.snd)) /
            StdDev ((([("A", (1 : ℝ)), ("B", 3)] :
              List (String × ℝ))).map Prod.snd) * 15 < 0 then (0 : ℝ)
          else 50 + (v - Mean ((([("A", (1 : ℝ)), ("B", 3)] :
              List (String × ℝ))).map Prod.snd)) /
            StdDev ((([("A", (1 : ℝ)), ("B", 3)] :
              List (String × ℝ))).map Prod.snd) * 15) > 100 then (100 : ℝ)
        else (if 50 + (v - Mean ((([("A", (1 : ℝ)), ("B", 3)] :
              List (String × ℝ))).map Prod.snd)) /
            StdDev ((([("A", (1 : ℝ)), ("B", 3)] :
              List (String × ℝ))).map Prod.snd) * 15 < 0 then (0 : ℝ)
          else 50 + (v - Mean ((([("A", (1 : ℝ)), ("B", 3)] :
              List (String × ℝ))).map Prod.snd)) /
            StdDev ((([("A", (1 : ℝ)), ("B", 3)] :
              List (String × ℝ))).map Prod.snd) * 15))) hA).trans
      (congrArg some ?_)
    rw [hmap, hmean, hstd, hsimp]
    rw [if_neg (by linarith : ¬ ((50 : ℝ) - 15 / Real.sqrt 2 < 0))]
    rw [if_neg (by linarith : ¬ ((50 : ℝ) - 15 / Real.sqrt 2 > 100))]
    rw [round2_eq _ 3939 (by linarith) (by linarith) (by linarith)]
    norm_num
  have hpopvar : ((([(1 : ℝ), 3]).map (fun x => (x - Mean [(1 : ℝ), 3]) ^ 2)).sum) /
      (([(1 : ℝ), 3]).length : ℝ) = 1 := by
    rw [hmean]
    norm_num
  have hstdpop : ¬ Real.sqrt ((((([("A", (1 : ℝ)), ("B", 3)] :
      List (String × ℝ)).map Prod.snd).map (fun x =>
      (x - Mean (([("A", (1 : ℝ)), ("B", 3)] :
        List (String × ℝ)).map Prod.snd)) ^ 2)).sum) /
      (((([("A", (1 : ℝ)), ("B", 3)] :
        List (String × ℝ)).map Prod.snd).length : ℝ))) = 0 := by
    rw [hmap, hpopvar, Real.sqrt_one]
    norm_num
  have hspec : alookup "A" (NormalizeScoreZScoreSpec [("A", (1 : ℝ)), ("B", 3)] true) =
      some 35 := by
    rw [normalizeScoreZSpec_formula _ true hne hstdpop]
    simp only [Bool.not_true, Bool.false_eq_true, if_false]
    refine (alookup_map_value_eq (fun v => round2
      (if (if 50 + (v - Mean ((([("A", (1 : ℝ)), ("B", 3)] :
              List (String × ℝ))).map Prod.snd)) /
            Real.sqrt ((((([("A", (1 : ℝ)), ("B", 3)] :
              List (String × ℝ)).map Prod.snd).map (fun x =>
              (x - Mean (([("A", (1 : ℝ)), ("B", 3)] :
                List (String × ℝ)).map Prod.snd)) ^ 2)).sum) /
              ((([("A", (1 : ℝ)), ("B", 3)] :
                List (String × ℝ)).map Prod.snd).length)) * 15 < 0 then (0 : ℝ)
          else 50 + (v - Mean ((([("A", (1 : ℝ)), ("B", 3)] :
              List (String × ℝ))).map Prod.snd)) /
            Real.sqrt ((((([("A", (1 : ℝ)), ("B", 3)] :
              List (String × ℝ)).map Prod.snd).map (fun x =>
              (x - Mean (([("A", (1 : ℝ)), ("B", 3)] :
                List (String × ℝ)).map Prod.snd)) ^ 2)).sum) /
              ((([("A", (1 : ℝ)), ("B", 3)] :
                List (String × ℝ)).map Prod.snd).length)) * 15) > 100
          then (100 : ℝ)
        else (if 50 + (v - Mean ((([("A", (1 : ℝ)), ("B", 3)] :
              List (String × ℝ))).map Prod.snd)) /
            Real.sqrt ((((([("A", (1 : ℝ)), ("B", 3)] :
              List (String × ℝ)).map Prod.snd).map (fun x =>
              (x - Mean (([("A", (1 : ℝ)), ("B", 3)] :
                List (String × ℝ)).map Prod.snd)) ^ 2)).sum) /
              ((([("A", (1 : ℝ)), ("B", 3)] :
                List (String × ℝ)).map Prod.snd).length)) * 15 < 0 then (0 : ℝ)
          else 50 + (v - Mean ((([("A", (1 : ℝ)), ("B", 3)] :
              List (String × ℝ))).map Prod.snd)) /
            Real.sqrt ((((([("A", (1 : ℝ)), ("B", 3)] :
              List (String × ℝ)).map Prod.snd).map (fun x =>
              (x - Mean (([("A", (1 : ℝ)), ("B", 3)] :
                List (String × ℝ)).map Prod.snd)) ^ 2)).sum) /
              ((([("A", (1 : ℝ)), ("B", 3)] :
                List (String × ℝ)).map Prod.snd).length)) * 15))) hA).trans
      (congrArg some ?_)
    rw [hmap, hpopvar, Real.sqrt_one, hmean]
    rw [show (50 : ℝ) + (1 - 2) / 1 * 15 = 35 by ring]
    rw [if_neg (by norm_num : ¬ ((35 : ℝ) < 0))]
    rw [if_neg (by norm_num : ¬ ((35 : ℝ) > 100))]
    rw [round2_eq _ 3500 (by norm_num) (by norm_num) (by norm_num)]
    norm_num
  refine ⟨hcode, hspec, ?_⟩
  rw [hcode, hspec]
  intro hcontra
  have := Option.some.inj hcontra
  norm_num at this

/-- C5 witness: the amended statement instantiated at the concrete map
A=1, B=3 with higher-is-better polarity. -/
theorem C5_zscore_sample_std_witness :
    (([("A", (1 : ℝ)), ("B", 3)] : List (String × ℝ)).map Prod.fst).Nodup ∧
    (∃ p ∈ ([("A", (1 : ℝ)), ("B", 3)] : List (String × ℝ)),
      ∃ q ∈ ([("A", (1 : ℝ)), ("B", 3)] : List (String × ℝ)), p.2 ≠ q.2) ∧
    ((Mean (([("A", (1 : ℝ)), ("B", 3)] : List (String × ℝ)).map Prod.snd) =
        (([("A", (1 : ℝ)), ("B", 3)] : List (String × ℝ)).map Prod.snd).sum /
          ((([("A", (1 : ℝ)), ("B", 3)] : List (String × ℝ)).map Prod.snd).length)) ∧
      (StdDev (([("A", (1 : ℝ)), ("B", 3)] : List (String × ℝ)).map Prod.snd) =
        Real.sqrt ((((([("A", (1 : ℝ)), ("B", 3)] : List (String × ℝ)).map
          Prod.snd).map (fun x =>
          (x - Mean (([("A", (1 : ℝ)), ("B", 3)] :
            List (String × ℝ)).map Prod.snd)) ^ 2)).sum) /
          (((([("A", (1 : ℝ)), ("B", 3)] :
            List (String × ℝ)).map Prod.snd).length : ℝ) - 1))) ∧
      List.Forall (fun p =>
        alookup p.1 (NormalizeScoreZScore [("A", (1 : ℝ)), ("B", 3)] true) =
          some (round2 (
          if !true then
            100 - (if (if 50 + (p.2 - Mean (([("A", (1 : ℝ)), ("B", 3)] :
                    List (String × ℝ)).map Prod.snd)) /
                    StdDev (([("A", (1 : ℝ)), ("B", 3)] :
                      List (String × ℝ)).map Prod.snd) * 15 < 0 then (0 : ℝ)
                  else 50 + (p.2 - Mean (([("A", (1 : ℝ)), ("B", 3)] :
                    List (String × ℝ)).map Prod.snd)) /
                    StdDev (([("A", (1 : ℝ)), ("B", 3)] :
                      List (String × ℝ)).map Prod.snd) * 15) > 100 then (100 : ℝ)
                else (if 50 + (p.2 - Mean (([("A", (1 : ℝ)), ("B", 3)] :
                    List (String × ℝ)).map Prod.snd)) /
                    StdDev (([("A", (1 : ℝ)), ("B", 3)] :
                      List (String × ℝ)).map Prod.snd) * 15 < 0 then (0 : ℝ)
                  else 50 + (p.2 - Mean (([("A", (1 : ℝ)), ("B", 3)] :
                    List (String × ℝ)).map Prod.snd)) /
                    StdDev (([("A", (1 : ℝ)), ("B", 3)] :
                      List (String × ℝ)).map Prod.snd) * 15))
          else
            (if (if 50 + (p.2 - Mean (([("A", (1 : ℝ)), ("B", 3)] :
                    List (String × ℝ)).map Prod.snd)) /
                    StdDev (([("A", (1 : ℝ)), ("B", 3)] :
                      List (String × ℝ)).map Prod.snd) * 15 < 0 then (0 : ℝ)
                  else 50 + (p.2 - Mean (([("A", (1 : ℝ)), ("B", 3)] :
                    List (String × ℝ)).map Prod.snd)) /
                    StdDev (([("A", (1 : ℝ)), ("B", 3)] :
                      List (String × ℝ)).map Prod.snd) * 15) > 100 then (100 : ℝ)
                else (if 50 + (p.2 - Mean (([("A", (1 : ℝ)), ("B", 3)] :
                    List (String × ℝ)).map Prod.snd)) /
                    StdDev (([("A", (1 : ℝ)), ("B", 3)] :
                      List (String × ℝ)).map Prod.snd) * 15 < 0 then (0 : ℝ)
                  else 50 + (p.2 - Mean (([("A", (1 : ℝ)), ("B", 3)] :
                    List (String × ℝ)).map Prod.snd)) /
                    StdDev (([("A", (1 : ℝ)), ("B", 3)] :
                      List (String × ℝ)).map Prod.snd) * 15)))))
        [("A", (1 : ℝ)), ("B", 3)]) :=
  ⟨by simp, ⟨("A", 1), by simp, ("B", 3), by simp, by norm_num⟩,
    C5_zscore_sample_std_amended [("A", 1), ("B", 3)] true (by simp)
      ⟨("A", 1), by simp, ("B", 3), by simp, by norm_num⟩⟩

end
